import Mathlib

/-!
# Verification of the VectorDb core against its specification

This file gives a shallow embedding, in Lean 4, of the parts of the
`iwinterknight/VectorDb` repository that the frozen claims C1–C10 talk
about, and proves or refutes each claim.

Conventions of the embedding:

* Python floats are modelled as exact rationals (`ℚ`); every score and
  vector component is a rational.  The claims under study are about
  selection, ordering and state, not about rounding.
* Python `list` is `List`; a Python `dict` is an insertion-ordered
  association list (`PyDict`), with `dict` equality modelled
  order-insensitively as in Python (`pyDictEqBy`); a Python `set` of ids
  is an insertion-ordered duplicate-free list (`PySet`), compared by
  content.  CPython's *iteration* order over a `set` is unspecified
  (string hashing is randomized per process); wherever the source
  converts a set to a list (`list(cand_ids)` in `rp_forest.py`) the
  embedding takes the enumeration as an explicit parameter, quantified
  in theorems over all permutations of the set's content.
* Exceptions are `Except PyErr`; mutations performed before a `raise`
  persist, exactly as in Python.
* `uuid4()` and timestamps are external inputs: ids are `ℕ` supplied by
  the caller, `created_at` values are abstract rationals.
* `heapq.nlargest(k, xs, key=score)` is embedded as
  `take k` of a stable descending insertion sort, which is the
  documented semantics (`sorted(xs, key=score, reverse=True)[:k]`,
  stability included).
-/

namespace VectorDb

/-! ## Metric kernels (`app/repo/indices/metrics.py`) -/

/-- Dense vectors of rationals (Python `list[float]`). -/
abbrev Vec := List ℚ

/-- `dot(a, b)` from `metrics.py`: `sum(x*y for x, y in zip(a, b))`. -/
def dot (a b : Vec) : ℚ := ((a.zip b).map (fun p => p.1 * p.2)).sum

/-- `l2sq(a, b)` from `metrics.py`: `sum((x-y)*(x-y) for x, y in zip(a, b))`. -/
def l2sq (a b : Vec) : ℚ := ((a.zip b).map (fun p => (p.1 - p.2) * (p.1 - p.2))).sum

/-- `cosine(a, b)` from `metrics.py`: returns the dot product (inputs are
assumed normalized by the caller). -/
def cosine (a b : Vec) : ℚ := dot a b

/-- The two supported metrics (`Literal["cosine","l2"]`). -/
inductive Metric where
  | cosine : Metric
  | l2 : Metric
deriving DecidableEq, Repr

/-- The unified larger-is-better score: raw cosine for `cosine`,
negated squared L2 for `l2`.  This is the score every index and ranker
uses (`flat.py`, `rp_forest.py` `_score`, `search.py` `_score_metric`). -/
def scoreMetric (m : Metric) (q v : Vec) : ℚ :=
  match m with
  | .cosine => cosine q v
  | .l2 => - l2sq q v

/-! ## `heapq.nlargest` as a stable descending sort

`nlargest(k, xs, key=lambda t: t[1])` returns the same list as
`sorted(xs, key=lambda t: t[1], reverse=True)[:k]`; CPython's
implementation decorates elements with a decreasing tie-break counter, so
elements with equal scores keep their original relative order.  We embed
it as `take k` of `List.insertionSort` under the total relation
"score not smaller", which Mathlib's `insertionSort` sorts stably. -/

/-- The relation `insertionSort` uses for a descending stable sort on
score-carrying pairs: `a` may come before `b` iff `a`'s score is ≥. -/
def keyGe {α : Type} (a b : α × ℚ) : Prop := b.2 ≤ a.2

instance {α : Type} : DecidableRel (keyGe (α := α)) := fun a b => by
  unfold keyGe; infer_instance

instance {α : Type} : IsTotal (α × ℚ) keyGe :=
  ⟨fun a b => (le_total b.2 a.2).imp (fun h => h) (fun h => h)⟩

instance {α : Type} : IsTrans (α × ℚ) keyGe :=
  ⟨fun _ _ _ hab hbc => le_trans hbc hab⟩

/-- `heapq.nlargest(k, xs, key=lambda t: t[1])`. -/
def nlargest {α : Type} (k : ℕ) (xs : List (α × ℚ)) : List (α × ℚ) :=
  (List.insertionSort keyGe xs).take k

/-! ## Flat index (`app/repo/indices/flat.py`) -/

/-- `FlatIndex`: an ordered sequence of `(chunk_id, vector)` pairs plus a
metric.  Ids are the `str(chunk_id)` strings the Python code stores. -/
structure FlatIndex where
  metric : Metric
  ids : List String
  vecs : List Vec
deriving Repr

/-- `FlatIndex.rebuild(pairs)`: replace `ids`/`vecs` with the pairs in
order. -/
def FlatIndex.rebuild (metric : Metric) (pairs : List (String × Vec)) : FlatIndex :=
  { metric := metric
    ids := pairs.map Prod.fst
    vecs := pairs.map Prod.snd }

/-- The scored list `FlatIndex.query` builds: one `(id, score)` pair per
stored pair, in storage order (`for id_, v in zip(self.ids, self.vecs)`),
cosine used as-is and l2 negated. -/
def FlatIndex.scored (idx : FlatIndex) (q : Vec) : List (String × ℚ) :=
  match idx.metric with
  | .cosine => (idx.ids.zip idx.vecs).map (fun p => (p.1, cosine q p.2))
  | .l2 => (idx.ids.zip idx.vecs).map (fun p => (p.1, - l2sq q p.2))

/-- `FlatIndex.query(q, k)`: empty index returns `[]`, otherwise the
top-`k` of the scored pairs by `nlargest`. -/
def FlatIndex.query (idx : FlatIndex) (q : Vec) (k : ℕ) : List (String × ℚ) :=
  if idx.ids = [] then []
  else nlargest k (idx.scored q)

/-! ## Python containers

A Python `dict` is embedded as an insertion-ordered association list
with unique keys maintained by construction (`dictSet` replaces in
place, new keys append).  A Python `set` of ids is an insertion-ordered
duplicate-free list; only its content is meaningful — iteration order of
a real CPython set is unspecified and is made explicit wherever the
source observes it. -/

section PyContainers

variable {K V : Type} [DecidableEq K]

/-- `d[k] = v`: replace in place if the key exists, else append. -/
def dictSet : List (K × V) → K → V → List (K × V)
  | [], k, v => [(k, v)]
  | p :: d, k, v => if p.1 = k then (k, v) :: d else p :: dictSet d k v

/-- `d.get(k)` / `d[k]` lookup. -/
def dictGet : List (K × V) → K → Option V
  | [], _ => none
  | p :: d, k => if p.1 = k then some p.2 else dictGet d k

/-- `d.get(k, dflt)`. -/
def dictGetD (d : List (K × V)) (k : K) (dflt : V) : V :=
  (dictGet d k).getD dflt

/-- `d.pop(k, None)`: drop the binding of `k` if present. -/
def dictPop (d : List (K × V)) (k : K) : List (K × V) :=
  d.filter (fun p => p.1 ≠ k)

/-- `k in d`. -/
def dictMem (d : List (K × V)) (k : K) : Bool :=
  (dictGet d k).isSome

/-- Python `dict` equality: same keys, equal values (order-insensitive),
with values compared by `eqv`. -/
def dictEqBy (eqv : V → V → Bool) (d1 d2 : List (K × V)) : Bool :=
  (d1.all fun p =>
    match dictGet d2 p.1 with
    | some v => eqv p.2 v
    | none => false) &&
  (d2.all fun p => (dictGet d1 p.1).isSome)

/-- `{k: v for (k, v) in pairs}` (later duplicates win, like Python). -/
def pyDictOfPairs (pairs : List (K × V)) : List (K × V) :=
  pairs.foldl (fun d p => dictSet d p.1 p.2) []

/-- `s.add(k)`. -/
def setAdd (s : List K) (k : K) : List K :=
  if k ∈ s then s else s ++ [k]

/-- `s.update(xs)`. -/
def setUpdate (s : List K) (xs : List K) : List K :=
  xs.foldl setAdd s

/-- `s.discard(k)` (also models `s.remove(k)` after a membership check). -/
def setDiscard (s : List K) (k : K) : List K :=
  s.filter (· ≠ k)

/-- Python `set` equality: same content. -/
def setEq (s1 s2 : List K) : Bool :=
  decide (∀ x ∈ s1, x ∈ s2) && decide (∀ x ∈ s2, x ∈ s1)

theorem dictSet_append_of_not_mem {d : List (K × V)} {k : K} (v : V)
    (h : ∀ p ∈ d, p.1 ≠ k) : dictSet d k v = d ++ [(k, v)] := by
  induction d with
  | nil => rfl
  | cons p d ih =>
    have hp : p.1 ≠ k := h p (List.mem_cons_self p d)
    simp only [dictSet, if_neg hp, List.cons_append]
    rw [ih (fun q hq => h q (List.mem_cons_of_mem p hq))]

theorem foldl_dictSet_append : ∀ (pairs acc : List (K × V)),
    ((acc ++ pairs).map Prod.fst).Nodup →
    pairs.foldl (fun d p => dictSet d p.1 p.2) acc = acc ++ pairs := by
  intro pairs
  induction pairs with
  | nil => intro acc _; simp
  | cons p pairs ih =>
    intro acc hacc
    have hnotin : ∀ q ∈ acc, q.1 ≠ p.1 := by
      intro q hq
      have h1 : q.1 ∈ (acc.map Prod.fst) := List.mem_map_of_mem Prod.fst hq
      have h2 : p.1 ∈ ((p :: pairs).map Prod.fst) := by simp
      intro he
      have := List.disjoint_of_nodup_append (by simpa using hacc)
      exact this h1 (by simp [he])
    simp only [List.foldl_cons]
    rw [dictSet_append_of_not_mem p.2 hnotin]
    have := ih (acc ++ [p]) (by simpa using hacc)
    simpa using this

/-- Building a dict from pairs with pairwise-distinct keys keeps the
pairs untouched. -/
theorem pyDictOfPairs_eq_self {pairs : List (K × V)}
    (h : (pairs.map Prod.fst).Nodup) : pyDictOfPairs pairs = pairs := by
  simpa using foldl_dictSet_append pairs [] (by simpa using h)

theorem dictGet_of_mem_nodup {pairs : List (K × V)} {p : K × V}
    (h : (pairs.map Prod.fst).Nodup) (hp : p ∈ pairs) :
    dictGet pairs p.1 = some p.2 := by
  induction pairs with
  | nil => cases hp
  | cons q pairs ih =>
    cases hp with
    | head => simp [dictGet]
    | tail _ hmem =>
      have hq : q.1 ≠ p.1 := by
        intro he
        have : p.1 ∈ pairs.map Prod.fst := List.mem_map_of_mem Prod.fst hmem
        have hnd := h
        simp only [List.map_cons, List.nodup_cons] at hnd
        exact hnd.1 (he ▸ this)
      simp only [dictGet, if_neg hq]
      exact ih (by simp only [List.map_cons, List.nodup_cons] at h; exact h.2) hmem

theorem setAdd_of_mem {s : List K} {k : K} (h : k ∈ s) : setAdd s k = s := by
  simp [setAdd, h]

theorem setUpdate_self_of_subset {s : List K} {xs : List K}
    (h : ∀ x ∈ xs, x ∈ s) : setUpdate s xs = s := by
  induction xs with
  | nil => rfl
  | cons x xs ih =>
    simp only [setUpdate, List.foldl_cons]
    rw [setAdd_of_mem (h x (List.mem_cons_self x xs))]
    exact ih (fun y hy => h y (List.mem_cons_of_mem x hy))

theorem foldl_setAdd_append : ∀ (xs acc : List K), (acc ++ xs).Nodup →
    xs.foldl setAdd acc = acc ++ xs := by
  intro xs
  induction xs with
  | nil => intro acc _; simp
  | cons x xs ih =>
    intro acc hacc
    have hx : x ∉ acc := by
      intro hmem
      have := List.disjoint_of_nodup_append hacc
      exact this hmem (List.mem_cons_self x xs)
    simp only [List.foldl_cons]
    rw [show setAdd acc x = acc ++ [x] by simp [setAdd, hx]]
    have := ih (acc ++ [x]) (by simpa using hacc)
    simpa using this

theorem setUpdate_nil_of_nodup {xs : List K} (h : xs.Nodup) :
    setUpdate ([] : List K) xs = xs := by
  simpa [setUpdate] using foldl_setAdd_append xs [] (by simpa using h)

end PyContainers

/-! ## Ranking specification: decreasing score, ties by insertion order

To state "top-k by score with ties broken by insertion order" we index
the scored pairs by their position and order them by
"strictly larger score, or equal score and smaller index". -/

/-- Attach positions `n, n+1, …` to a list (Python `enumerate`). -/
def withIdx {α : Type} (n : ℕ) : List α → List (ℕ × α)
  | [] => []
  | a :: l => (n, a) :: withIdx (n + 1) l

/-- Order on indexed scored pairs: `x` may precede `y` iff `x` has a
strictly larger score, or an equal score and a position not later. -/
def rankRel {α : Type} (x y : ℕ × (α × ℚ)) : Prop :=
  y.2.2 < x.2.2 ∨ (x.2.2 = y.2.2 ∧ x.1 ≤ y.1)

/-- Strict-or-equal version of `rankRel`, antisymmetric, used to pin the
ranked arrangement down uniquely. -/
def rankStrict {α : Type} (x y : ℕ × (α × ℚ)) : Prop :=
  y.2.2 < x.2.2 ∨ (x.2.2 = y.2.2 ∧ x.1 < y.1) ∨ x = y

instance {α : Type} : DecidableRel (rankRel (α := α)) := fun x y => by
  unfold rankRel; infer_instance

instance {α : Type} [DecidableEq α] : DecidableRel (rankStrict (α := α)) := fun x y => by
  unfold rankStrict; infer_instance

instance {α : Type} : IsTotal (ℕ × (α × ℚ)) rankRel := by
  constructor
  intro x y
  rcases lt_trichotomy x.2.2 y.2.2 with h | h | h
  · exact Or.inr (Or.inl h)
  · rcases le_total x.1 y.1 with h' | h'
    · exact Or.inl (Or.inr ⟨h, h'⟩)
    · exact Or.inr (Or.inr ⟨h.symm, h'⟩)
  · exact Or.inl (Or.inl h)

instance {α : Type} : IsTrans (ℕ × (α × ℚ)) rankRel := by
  constructor
  intro x y z hxy hyz
  rcases hxy with h1 | ⟨e1, i1⟩
  · rcases hyz with h2 | ⟨e2, _⟩
    · exact Or.inl (lt_trans h2 h1)
    · exact Or.inl (e2 ▸ h1)
  · rcases hyz with h2 | ⟨e2, i2⟩
    · exact Or.inl (e1 ▸ h2)
    · exact Or.inr ⟨e1.trans e2, le_trans i1 i2⟩

instance {α : Type} : IsAntisymm (ℕ × (α × ℚ)) rankStrict := by
  constructor
  intro x y hxy hyx
  rcases hxy with h1 | ⟨e1, i1⟩ | rfl
  · rcases hyx with h2 | ⟨e2, _⟩ | rfl
    · exact absurd (lt_trans h1 h2) (lt_irrefl _)
    · exact absurd (e2 ▸ h1) (lt_irrefl _)
    · rfl
  · rcases hyx with h2 | ⟨_, i2⟩ | rfl
    · exact absurd (e1 ▸ h2) (lt_irrefl _)
    · exact absurd (lt_trans i1 i2) (lt_irrefl _)
    · rfl
  · rfl

theorem mem_withIdx_ge {α : Type} {n : ℕ} {l : List α} :
    ∀ x ∈ withIdx n l, n ≤ x.1 := by
  induction l generalizing n with
  | nil => intro x hx; cases hx
  | cons a l ih =>
    intro x hx
    cases hx with
    | head => exact le_refl n
    | tail _ h => exact le_trans (Nat.le_succ n) (ih x h)

theorem withIdx_map_snd {α : Type} (n : ℕ) (l : List α) :
    (withIdx n l).map Prod.snd = l := by
  induction l generalizing n with
  | nil => rfl
  | cons a l ih => simp [withIdx, ih]

theorem withIdx_idx_nodup {α : Type} (n : ℕ) (l : List α) :
    List.Pairwise (fun x y : ℕ × α => x.1 ≠ y.1) (withIdx n l) := by
  induction l generalizing n with
  | nil => exact List.Pairwise.nil
  | cons a l ih =>
    refine List.Pairwise.cons ?_ (ih (n + 1))
    intro y hy
    have := mem_withIdx_ge y hy
    omega

/-- Inserting an element whose index is below every index in the list
commutes with dropping the indices. -/
theorem map_orderedInsert_lowIdx {α : Type} (x : ℕ × (α × ℚ))
    (L : List (ℕ × (α × ℚ))) (h : ∀ y ∈ L, x.1 < y.1) :
    (List.orderedInsert rankRel x L).map Prod.snd =
      List.orderedInsert keyGe x.2 (L.map Prod.snd) := by
  induction L with
  | nil => rfl
  | cons y L ih =>
    have hxy : x.1 < y.1 := h y (List.mem_cons_self y L)
    have hiff : rankRel x y ↔ keyGe x.2 y.2 := by
      constructor
      · intro hr
        rcases hr with hlt | ⟨he, _⟩
        · exact le_of_lt hlt
        · exact le_of_eq he.symm
      · intro hk
        rcases lt_or_eq_of_le hk with hlt | he
        · exact Or.inl hlt
        · exact Or.inr ⟨he.symm, le_of_lt hxy⟩
    by_cases hc : rankRel x y
    · simp only [List.orderedInsert, if_pos hc, List.map_cons,
        if_pos (hiff.mp hc)]
    · simp only [List.orderedInsert, if_neg hc, List.map_cons,
        if_neg (fun hk => hc (hiff.mpr hk)),
        ih (fun z hz => h z (List.mem_cons_of_mem y hz))]

/-- Stability of the embedded `nlargest`: sorting the indexed list under
`rankRel` and dropping indices is the plain stable descending sort. -/
theorem insertionSort_withIdx_map {α : Type} (n : ℕ) (l : List (α × ℚ)) :
    (List.insertionSort rankRel (withIdx n l)).map Prod.snd =
      List.insertionSort keyGe l := by
  induction l generalizing n with
  | nil => rfl
  | cons a l ih =>
    have hmem : ∀ y ∈ List.insertionSort rankRel (withIdx (n + 1) l), n < y.1 := by
      intro y hy
      have : y ∈ withIdx (n + 1) l :=
        (List.perm_insertionSort rankRel (withIdx (n + 1) l)).mem_iff.mp hy
      have := mem_withIdx_ge y this
      omega
    calc (List.insertionSort rankRel (withIdx n (a :: l))).map Prod.snd
        = (List.orderedInsert rankRel (n, a)
            (List.insertionSort rankRel (withIdx (n + 1) l))).map Prod.snd := rfl
      _ = List.orderedInsert keyGe a
            ((List.insertionSort rankRel (withIdx (n + 1) l)).map Prod.snd) :=
          map_orderedInsert_lowIdx (n, a) _ hmem
      _ = List.orderedInsert keyGe a (List.insertionSort keyGe l) := by rw [ih]
      _ = List.insertionSort keyGe (a :: l) := rfl

/-- A `rankRel`-sorted list with pairwise distinct indices is
`rankStrict`-sorted. -/
theorem sorted_rankStrict_of_sorted_rankRel {α : Type}
    {L : List (ℕ × (α × ℚ))} (hs : L.Sorted rankRel)
    (hn : List.Pairwise (fun x y : ℕ × (α × ℚ) => x.1 ≠ y.1) L) :
    L.Sorted rankStrict := by
  have := List.Pairwise.and hs hn
  refine this.imp ?_
  rintro x y ⟨hr, hne⟩
  rcases hr with hlt | ⟨he, hle⟩
  · exact Or.inl hlt
  · exact Or.inr (Or.inl ⟨he, lt_of_le_of_ne hle hne⟩)

/-- The canonical ranked arrangement of the scored pairs of a flat
index: every permutation of the indexed scored list that is sorted by
"larger score first, ties by smaller index first" (there is exactly
one). -/
def rankedArrangement {α : Type} [DecidableEq α]
    (scored : List (α × ℚ)) (L : List (ℕ × (α × ℚ))) : Prop :=
  L.Perm (withIdx 0 scored) ∧ L.Sorted rankStrict

instance {α : Type} [DecidableEq α] (scored : List (α × ℚ))
    (L : List (ℕ × (α × ℚ))) : Decidable (rankedArrangement scored L) := by
  unfold rankedArrangement; infer_instance

/-- Core of C3: `nlargest k` is the `k`-prefix of the unique ranked
arrangement, indices dropped. -/
theorem nlargest_eq_ranked {α : Type} [DecidableEq α]
    (k : ℕ) (scored : List (α × ℚ)) (L : List (ℕ × (α × ℚ)))
    (hL : rankedArrangement scored L) :
    nlargest k scored = (L.take k).map Prod.snd := by
  obtain ⟨hperm, hsort⟩ := hL
  have hs1 : (List.insertionSort rankRel (withIdx 0 scored)).Sorted rankStrict := by
    apply sorted_rankStrict_of_sorted_rankRel
      (List.sorted_insertionSort rankRel _)
    have hnd := withIdx_idx_nodup 0 scored
    exact ((List.perm_insertionSort rankRel (withIdx 0 scored)).pairwise_iff
      (fun {x y} h => (h ·.symm))).mpr hnd
  have hkey : List.insertionSort rankRel (withIdx 0 scored) = L :=
    List.eq_of_perm_of_sorted (r := rankStrict)
      ((List.perm_insertionSort rankRel _).trans hperm.symm) hs1 hsort
  calc nlargest k scored
      = (List.insertionSort keyGe scored).take k := rfl
    _ = ((List.insertionSort rankRel (withIdx 0 scored)).map Prod.snd).take k := by
        rw [insertionSort_withIdx_map]
    _ = ((List.insertionSort rankRel (withIdx 0 scored)).take k).map Prod.snd := by
        rw [List.map_take]
    _ = (L.take k).map Prod.snd := by rw [hkey]

/-- **C3** (flat index top-k correctness).  For every flat index state —
an ordered sequence of `(chunk_id, vector)` pairs and a metric — and
every query `q` and `k`, `FlatIndex.query q k` equals the `k`-prefix of
the ranked arrangement of the scored pairs: decreasing unified score
(raw cosine for `cosine`, negated squared L2 for `l2`), ties broken by
insertion order of the pairs; an empty index returns `[]`. -/
theorem C3_flat_topk (metric : Metric) (pairs : List (String × Vec))
    (q : Vec) (k : ℕ) (L : List (ℕ × (String × ℚ)))
    (hL : rankedArrangement ((FlatIndex.rebuild metric pairs).scored q) L) :
    (FlatIndex.rebuild metric pairs).query q k = (L.take k).map Prod.snd ∧
      (pairs = [] → (FlatIndex.rebuild metric pairs).query q k = []) := by
  constructor
  · unfold FlatIndex.query
    by_cases hids : (FlatIndex.rebuild metric pairs).ids = []
    · have hp : pairs = [] := by
        simpa [FlatIndex.rebuild] using hids
      subst hp
      have hsc : (FlatIndex.rebuild metric []).scored q = [] := by
        cases metric <;> rfl
      rw [hsc] at hL
      have hLnil : L = [] := hL.1.eq_nil
      rw [if_pos hids, hLnil]
      simp
    · rw [if_neg hids]
      exact nlargest_eq_ranked k _ L hL
  · intro hp
    subst hp
    rfl

/-- Witness for C3 at a concrete input: metric l2, three stored pairs
with a score tie between the first and the third, `k = 2`. -/
theorem C3_flat_topk_witness :
    rankedArrangement
        ((FlatIndex.rebuild .l2 [("a", [0]), ("b", [1]), ("c", [0])]).scored [0])
        [(0, ("a", 0)), (2, ("c", 0)), (1, ("b", -1))] ∧
      (FlatIndex.rebuild .l2 [("a", [0]), ("b", [1]), ("c", [0])]).query [0] 2 =
        [("a", 0), ("c", 0)] := by
  have hsc : (FlatIndex.rebuild .l2 [("a", [0]), ("b", [1]), ("c", [0])]).scored [0]
      = [("a", 0), ("b", -1), ("c", 0)] := by
    norm_num [FlatIndex.scored, FlatIndex.rebuild, l2sq]
  have hra : rankedArrangement
      ((FlatIndex.rebuild .l2 [("a", [0]), ("b", [1]), ("c", [0])]).scored [0])
      [(0, ("a", 0)), (2, ("c", 0)), (1, ("b", -1))] := by
    rw [rankedArrangement, hsc]
    exact ⟨by decide, by decide⟩
  refine ⟨hra, ?_⟩
  have h := (C3_flat_topk .l2 [("a", [0]), ("b", [1]), ("c", [0])] [0] 2
    [(0, ("a", 0)), (2, ("c", 0)), (1, ("b", -1))] hra).1
  rw [h]
  rfl

/-! ## RP-forest index (`app/repo/indices/rp_forest.py`)

The PRNG is external (`random.Random.normalvariate`); the embedding
takes the stream of sampled direction vectors as an oracle
`rng : ℕ → Vec` per tree (`rng c` is the vector drawn by the `c`-th call
of `_random_vector`).  `_random_vector` divides the sampled vector by
its Euclidean norm (`or 1.0` for the zero vector); scaling `w` by a
positive constant scales every projection and the median threshold `b`
by the same constant, so no comparison made by build or query can
distinguish the normalized vector from the raw one — the oracle ranges
over all vectors, in particular the normalized ones.  Theorems about
the forest quantify over the oracle. -/

/-- Tree nodes: `_Leaf(ids)` and `_Node(w, b, left, right)`. -/
inductive RPNode where
  | leaf (ids : List String) : RPNode
  | node (w : Vec) (b : ℚ) (left right : RPNode) : RPNode
deriving DecidableEq, Repr

/-- Ascending stable sort key used by `projs.sort(key=lambda t: t[0])`. -/
def projLe (a b : ℚ × ℕ) : Prop := a.1 ≤ b.1

instance : DecidableRel projLe := fun a b => by unfold projLe; infer_instance

instance : IsTotal (ℚ × ℕ) projLe := ⟨fun a b => le_total a.1 b.1⟩

instance : IsTrans (ℚ × ℕ) projLe := ⟨fun _ _ _ h1 h2 => le_trans h1 h2⟩

/-- One split attempt of `_build_node`: project the points of `idxs`
onto `w`, sort by projection, take the median projection as threshold
`b`, and partition into projections `< b` (left) and `≥ b` (right). -/
def splitOnce (vecs : List Vec) (w : Vec) (idxs : List ℕ) :
    ℚ × List ℕ × List ℕ :=
  let projs := idxs.map (fun i => (dot w (vecs.getD i []), i))
  let sorted := List.insertionSort projLe projs
  let b := (sorted.getD (sorted.length / 2) (0, 0)).1
  ( b,
    (sorted.filter (fun p => p.1 < b)).map Prod.snd,
    (sorted.filter (fun p => b ≤ p.1)).map Prod.snd )

theorem length_filter_lt_of_exists_not {α : Type} (p : α → Bool)
    (l : List α) (x : α) (hx : x ∈ l) (hpx : p x = false) :
    (l.filter p).length < l.length := by
  induction l with
  | nil => cases hx
  | cons a l ih =>
    cases hx with
    | head =>
      simp only [List.filter_cons, hpx, List.length_cons]
      exact Nat.lt_succ_of_le (List.length_filter_le p l)
    | tail _ hmem =>
      by_cases ha : p a
      · rw [List.filter_cons_of_pos ha]
        exact Nat.succ_lt_succ (ih hmem)
      · rw [List.filter_cons_of_neg ha]
        exact Nat.lt_succ_of_lt (ih hmem)

theorem splitOnce_left_lt (vecs : List Vec) (w : Vec) (idxs : List ℕ)
    (h : (splitOnce vecs w idxs).2.2 ≠ []) :
    (splitOnce vecs w idxs).2.1.length < idxs.length := by
  unfold splitOnce at h ⊢
  set projs := idxs.map (fun i => (dot w (vecs.getD i []), i)) with hproj
  set sorted := List.insertionSort projLe projs with hsorted
  set b := (sorted.getD (sorted.length / 2) (0, 0)).1 with hb
  have hlen : sorted.length = idxs.length := by
    rw [hsorted, List.length_insertionSort, hproj, List.length_map]
  obtain ⟨x, hx, hpx⟩ : ∃ x ∈ sorted, ¬ x.1 < b := by
    by_contra hc
    push_neg at hc
    apply h
    simp only []
    rw [List.filter_eq_nil_iff.mpr ?_]
    · rfl
    · intro a ha
      simp only [decide_eq_true_eq, not_le]
      exact hc a ha
  calc ((sorted.filter (fun p => p.1 < b)).map Prod.snd).length
      = (sorted.filter (fun p => decide (p.1 < b))).length := List.length_map _ _
    _ < sorted.length :=
        length_filter_lt_of_exists_not _ sorted x hx (by simpa using hpx)
    _ = idxs.length := hlen

theorem splitOnce_right_lt (vecs : List Vec) (w : Vec) (idxs : List ℕ)
    (h : (splitOnce vecs w idxs).2.1 ≠ []) :
    (splitOnce vecs w idxs).2.2.length < idxs.length := by
  unfold splitOnce at h ⊢
  set projs := idxs.map (fun i => (dot w (vecs.getD i []), i)) with hproj
  set sorted := List.insertionSort projLe projs with hsorted
  set b := (sorted.getD (sorted.length / 2) (0, 0)).1 with hb
  have hlen : sorted.length = idxs.length := by
    rw [hsorted, List.length_insertionSort, hproj, List.length_map]
  obtain ⟨x, hx, hpx⟩ : ∃ x ∈ sorted, ¬ b ≤ x.1 := by
    by_contra hc
    push_neg at hc
    apply h
    simp only []
    rw [List.filter_eq_nil_iff.mpr ?_]
    · rfl
    · intro a ha
      simp only [decide_eq_true_eq, not_lt]
      exact hc a ha
  calc ((sorted.filter (fun p => b ≤ p.1)).map Prod.snd).length
      = (sorted.filter (fun p => decide (b ≤ p.1))).length := List.length_map _ _
    _ < sorted.length :=
        length_filter_lt_of_exists_not _ sorted x hx (by simpa using hpx)
    _ = idxs.length := hlen

/-- The up-to-5 resampling loop of `_build_node`.  Returns the first
non-degenerate split (both sides nonempty) together with the advanced
oracle counter, or `none` after `fuel` failures. -/
def splitTry (vecs : List Vec) (rng : ℕ → Vec) :
    ℕ → ℕ → (idxs : List ℕ) →
    Option {s : Vec × ℚ × List ℕ × List ℕ //
      s.2.2.1.length < idxs.length ∧ s.2.2.2.length < idxs.length} × ℕ
  | 0, ctr, _ => (none, ctr)
  | fuel + 1, ctr, idxs =>
    let w := rng ctr
    let r := splitOnce vecs w idxs
    if h : r.2.1 ≠ [] ∧ r.2.2 ≠ [] then
      (some ⟨(w, r.1, r.2.1, r.2.2),
        splitOnce_left_lt vecs w idxs h.2, splitOnce_right_lt vecs w idxs h.1⟩,
        ctr + 1)
    else splitTry vecs rng fuel (ctr + 1) idxs

/-- `_RPTree._build_node`: emit a leaf when `|S| ≤ leaf_size` (the
tree-level `leaf_size` is `max(leaf_size, 4)`), otherwise split by a
sampled hyperplane (resampling up to 5 times) and recurse, left then
right; fall back to a leaf on five degenerate splits. -/
def buildNode (ids : List String) (vecs : List Vec) (leafSize : ℕ)
    (rng : ℕ → Vec) (idxs : List ℕ) (ctr : ℕ) : RPNode × ℕ :=
  if idxs.length ≤ leafSize then
    (.leaf (idxs.map (fun i => ids.getD i "")), ctr)
  else
    match splitTry vecs rng 5 ctr idxs with
    | (none, ctr') => (.leaf (idxs.map (fun i => ids.getD i "")), ctr')
    | (some s, ctr') =>
      let left := buildNode ids vecs leafSize rng s.1.2.2.1 ctr'
      let right := buildNode ids vecs leafSize rng s.1.2.2.2 left.2
      (.node s.1.1 s.1.2.1 left.1 right.1, right.2)
termination_by idxs.length
decreasing_by
  · exact s.2.1
  · exact s.2.2

/-- An `_RPTree` after `build`: its root (the id/vector tables are only
used during build). -/
structure RPTree where
  root : RPNode
deriving DecidableEq, Repr

/-- `_RPTree.build`: effective leaf size `max(leaf_size, 4)`, index set
`range(len(ids))`. -/
def RPTree.build (leafSize : ℕ) (rng : ℕ → Vec) (ids : List String)
    (vecs : List Vec) : RPTree :=
  ⟨(buildNode ids vecs (max leafSize 4) rng (List.range ids.length) 0).1⟩

/-- `_RPTree._descend`: follow `dot(w, q) ≥ b → right, else left`. -/
def RPNode.descend (q : Vec) : RPNode → List String
  | .leaf ids => ids
  | .node w b left right => if b ≤ dot w q then right.descend q else left.descend q

/-- `_RPTree.candidates`: the ids of the reached leaf. -/
def RPTree.candidates (t : RPTree) (q : Vec) : List String :=
  t.root.descend q

/-- `RPForestIndex` state after `__init__` (+ `rebuild`): normalized
parameters, the trees, and the `id → vector` dict. -/
structure RPForestIndex where
  metric : Metric
  trees : ℕ
  leaf_size : ℕ
  candidate_mult : ℚ
  forest : List RPTree
  id_to_vec : List (String × Vec)
deriving DecidableEq, Repr

/-- `RPForestIndex.__init__`: `trees = max(1, trees)`,
`leaf_size = max(1, leaf_size)`, `candidate_mult = max(0.1, ·)`, no
trees, empty dict. -/
def RPForestIndex.init (metric : Metric) (trees leaf_size : ℕ)
    (candidate_mult : ℚ) : RPForestIndex :=
  { metric := metric
    trees := max 1 trees
    leaf_size := max 1 leaf_size
    candidate_mult := max (1/10) candidate_mult
    forest := []
    id_to_vec := [] }

/-- `RPForestIndex.rebuild(pairs)`: store the id→vec dict and build one
tree per slot, each with its own oracle `rng t`. -/
def RPForestIndex.rebuild (idx : RPForestIndex) (rng : ℕ → ℕ → Vec)
    (pairs : List (String × Vec)) : RPForestIndex :=
  let ids := pairs.map Prod.fst
  let vecs := pairs.map Prod.snd
  { idx with
    id_to_vec := pyDictOfPairs pairs
    forest := (List.range idx.trees).map
      (fun t => RPTree.build idx.leaf_size (rng t) ids vecs) }

/-- `RPForestIndex._score`: the unified larger-is-better score. -/
def RPForestIndex.score (idx : RPForestIndex) (q v : Vec) : ℚ :=
  scoreMetric idx.metric q v

/-- The candidate-union loop of `RPForestIndex.query`: one leaf per
tree, stopping as soon as the set size reaches `limit`. -/
def collectCandidates (q : Vec) (limit : ℕ) :
    List RPTree → List String → List String
  | [], s => s
  | t :: ts, s =>
    let s' := setUpdate s (t.candidates q)
    if limit ≤ s'.length then s'
    else collectCandidates q limit ts s'

/-- The hard candidate cap of `RPForestIndex.query`:
`limit = max(k, int(self.trees * self.leaf_size * self.candidate_mult))`,
`int` being floor (the product is positive: all three factors are). -/
def RPForestIndex.limit (idx : RPForestIndex) (k : ℕ) : ℕ :=
  max k (Int.toNat ⌊(idx.trees : ℚ) * (idx.leaf_size : ℚ) * idx.candidate_mult⌋)

/-- The candidate set `cand_ids` after the union loop, as its content in
first-collected order. -/
def RPForestIndex.candSet (idx : RPForestIndex) (q : Vec) (k : ℕ) :
    List String :=
  collectCandidates q (idx.limit k) idx.forest []

/-- `list(cand_ids)[:limit]` / `list(cand_ids)` — the list the exact
rerank runs over.  `enumSet` models CPython's `list(set)` conversion:
its iteration order is unspecified (string hashes are randomized per
process), so it is an explicit parameter; theorems quantify over all
content-preserving enumerations. -/
def RPForestIndex.candList (idx : RPForestIndex)
    (enumSet : List String → List String) (q : Vec) (k : ℕ) : List String :=
  if idx.limit k < (idx.candSet q k).length then
    (enumSet (idx.candSet q k)).take (idx.limit k)
  else enumSet (idx.candSet q k)

/-- `RPForestIndex.query(q, k)`: empty forest returns `[]`; otherwise
exact-rerank the candidate list and return its top-`k`. -/
def RPForestIndex.queryWith (idx : RPForestIndex)
    (enumSet : List String → List String) (q : Vec) (k : ℕ) :
    List (String × ℚ) :=
  if idx.forest = [] then []
  else
    nlargest k ((idx.candList enumSet q k).map
      (fun cid => (cid, idx.score q (dictGetD idx.id_to_vec cid []))))

/-! ## C5: RP degeneration to exact scan -/

theorem getD_range_eq {α : Type} (d : α) :
    ∀ l : List α, (List.range l.length).map (fun i => l.getD i d) = l := by
  intro l
  induction l with
  | nil => rfl
  | cons a l ih =>
    rw [List.length_cons, List.range_succ_eq_map, List.map_cons, List.map_map]
    have htail : List.map ((fun i => (a :: l).getD i d) ∘ Nat.succ)
        (List.range l.length) = l := by
      have hfg : ∀ i ∈ List.range l.length,
          ((fun i => (a :: l).getD i d) ∘ Nat.succ) i = l.getD i d :=
        fun i _ => rfl
      rw [List.map_congr_left hfg, ih]
    rw [htail]
    rfl

/-- With `|ids| ≤ max(leaf_size, 4)` the built tree is a single leaf
holding all ids in insertion order (the PRNG is never consulted). -/
theorem RPTree.build_leaf_of_le (leafSize : ℕ) (rng : ℕ → Vec)
    (ids : List String) (vecs : List Vec)
    (h : ids.length ≤ max leafSize 4) :
    RPTree.build leafSize rng ids vecs = ⟨.leaf ids⟩ := by
  unfold RPTree.build
  rw [buildNode, if_pos (by simpa using h), getD_range_eq]

theorem collectCandidates_const (q : Vec) (limit : ℕ) (ids : List String) :
    ∀ ts : List RPTree, (∀ t ∈ ts, RPTree.candidates t q = ids) →
    collectCandidates q limit ts ids = ids := by
  intro ts
  induction ts with
  | nil => intro _; rfl
  | cons t ts ih =>
    intro h
    have ht : RPTree.candidates t q = ids := h t (List.mem_cons_self t ts)
    have hupd : setUpdate ids (t.candidates q) = ids := by
      rw [ht]
      exact setUpdate_self_of_subset (fun x hx => hx)
    simp only [collectCandidates, hupd]
    by_cases hl : limit ≤ ids.length
    · rw [if_pos hl]
    · rw [if_neg hl]
      exact ih (fun t' ht' => h t' (List.mem_cons_of_mem t ht'))

theorem collectCandidates_const_from_nil (q : Vec) (limit : ℕ)
    (ids : List String) (hnd : ids.Nodup) (t : RPTree) (ts : List RPTree)
    (h : ∀ t' ∈ t :: ts, RPTree.candidates t' q = ids) :
    collectCandidates q limit (t :: ts) [] = ids := by
  have ht : RPTree.candidates t q = ids := h t (List.mem_cons_self t ts)
  have hupd : setUpdate [] (t.candidates q) = ids := by
    rw [ht]
    exact setUpdate_nil_of_nodup hnd
  simp only [collectCandidates, hupd]
  by_cases hl : limit ≤ ids.length
  · rw [if_pos hl]
  · rw [if_neg hl]
    exact collectCandidates_const q limit ids ts
      (fun t' ht' => h t' (List.mem_cons_of_mem t ht'))

/-- Strict-or-equal score order, antisymmetric; with pairwise-distinct
scores it pins the sorted arrangement down uniquely. -/
def scoreStrict {α : Type} (x y : α × ℚ) : Prop := y.2 < x.2 ∨ x = y

instance {α : Type} : IsAntisymm (α × ℚ) scoreStrict := by
  constructor
  intro x y hxy hyx
  rcases hxy with h1 | rfl
  · rcases hyx with h2 | rfl
    · exact absurd (lt_trans h1 h2) (lt_irrefl _)
    · rfl
  · rfl

theorem sorted_scoreStrict {α : Type} {L : List (α × ℚ)}
    (hs : L.Sorted keyGe)
    (hne : List.Pairwise (fun x y : α × ℚ => x.2 ≠ y.2) L) :
    L.Sorted scoreStrict := by
  refine (List.Pairwise.and hs hne).imp ?_
  rintro x y ⟨hle, hne'⟩
  exact Or.inl (lt_of_le_of_ne hle (fun he => hne' he.symm))

/-- Two permutations of the same multiset of scored pairs with pairwise
distinct scores have the same `nlargest`. -/
theorem nlargest_eq_of_perm_of_scores_ne {α : Type} (k : ℕ)
    {l1 l2 : List (α × ℚ)} (hperm : l1.Perm l2)
    (hne : List.Pairwise (fun x y : α × ℚ => x.2 ≠ y.2) l2) :
    nlargest k l1 = nlargest k l2 := by
  have hsym : ∀ {x y : α × ℚ}, x.2 ≠ y.2 → y.2 ≠ x.2 :=
    fun h => (h ·.symm)
  have hne1 : List.Pairwise (fun x y : α × ℚ => x.2 ≠ y.2) l1 :=
    (hperm.pairwise_iff hsym).mpr hne
  have hs1 : (List.insertionSort keyGe l1).Sorted scoreStrict :=
    sorted_scoreStrict (List.sorted_insertionSort keyGe l1)
      (((List.perm_insertionSort keyGe l1).pairwise_iff hsym).mpr hne1)
  have hs2 : (List.insertionSort keyGe l2).Sorted scoreStrict :=
    sorted_scoreStrict (List.sorted_insertionSort keyGe l2)
      (((List.perm_insertionSort keyGe l2).pairwise_iff hsym).mpr hne)
  have hp : (List.insertionSort keyGe l1).Perm (List.insertionSort keyGe l2) :=
    ((List.perm_insertionSort keyGe l1).trans hperm).trans
      (List.perm_insertionSort keyGe l2).symm
  have := List.eq_of_perm_of_sorted (r := scoreStrict) hp hs1 hs2
  rw [nlargest, nlargest, this]

/-- **C5 counterexample.**  The claim "for every RP parameterization with
`leaf_size ≥ N`, RP query equals flat query" fails: with `N = 2`,
`leaf_size = 2 ≥ N`, `trees = 1`, `candidate_mult = 0.1`, `k = 1`, the
candidate cap is `max(1, ⌊1·2·0.1⌋) = 1 < N`, so the candidate set is
trimmed to a single id before the exact rerank — here even under the
claim-favourable insertion-order enumeration of the set — and the
returned hit differs from the flat result. -/
theorem C5_counterexample :
    ((RPForestIndex.init .l2 1 2 (1/10)).rebuild (fun _ _ => [])
        [("a", [1]), ("b", [2])]).queryWith (fun s => s) [2] 1
      ≠ (FlatIndex.rebuild .l2 [("a", [1]), ("b", [2])]).query [2] 1 := by
  have hb : ∀ rng' : ℕ → Vec, RPTree.build (max 1 2) rng' ["a", "b"]
      [[1], [2]] = ⟨.leaf ["a", "b"]⟩ :=
    fun rng' => RPTree.build_leaf_of_le _ _ _ _ (by norm_num)
  have hidx : (RPForestIndex.init .l2 1 2 (1/10)).rebuild (fun _ _ => [])
      [("a", [1]), ("b", [2])] =
      { metric := .l2, trees := max 1 1, leaf_size := max 1 2,
        candidate_mult := max (1/10) (1/10),
        forest := [⟨.leaf ["a", "b"]⟩],
        id_to_vec := [("a", [1]), ("b", [2])] } := by
    rw [RPForestIndex.rebuild, RPForestIndex.init]
    simp only [List.range_succ, List.range_zero, List.nil_append,
      List.map_cons, List.map_nil, hb]
    norm_num [pyDictOfPairs, dictSet]
    decide
  have hlhs : ((RPForestIndex.init .l2 1 2 (1/10)).rebuild (fun _ _ => [])
      [("a", [1]), ("b", [2])]).queryWith (fun s => s) [2] 1
      = [("a", -1)] := by
    rw [hidx, RPForestIndex.queryWith]
    norm_num [RPForestIndex.limit, RPForestIndex.candSet,
      RPForestIndex.candList, collectCandidates, RPTree.candidates,
      RPNode.descend, setUpdate, setAdd, RPForestIndex.score, scoreMetric,
      l2sq, dictGetD, dictGet, nlargest, keyGe, List.insertionSort,
      List.orderedInsert]
  have hrhs : (FlatIndex.rebuild .l2 [("a", [1]), ("b", [2])]).query [2] 1
      = [("b", 0)] := by
    rw [FlatIndex.query]
    norm_num [FlatIndex.rebuild, FlatIndex.scored, l2sq, nlargest, keyGe,
      List.insertionSort, List.orderedInsert]
    decide
  rw [hlhs, hrhs]
  decide

/-- **C5 amended.**  With `leaf_size ≥ N`, *and* candidate cap
`max(k, ⌊trees·leaf_size·candidate_mult⌋) ≥ N`, *and* pairwise-distinct
scores, the RP query equals the flat query over the same pairs — for
every PRNG oracle and every enumeration order of the candidate set (the
parameters are the post-`__init__` normalized ones `max 1 trees`,
`max 1 leaf_size`, `max 0.1 candidate_mult`). -/
theorem C5_rp_degenerates_to_flat (metric : Metric) (trees0 leaf0 : ℕ)
    (mult0 : ℚ) (rng : ℕ → ℕ → Vec) (enumSet : List String → List String)
    (pairs : List (String × Vec)) (q : Vec) (k : ℕ)
    (henum : ∀ s, (enumSet s).Perm s)
    (hnodup : (pairs.map Prod.fst).Nodup)
    (hleaf : pairs.length ≤ max 1 leaf0)
    (hcap : pairs.length ≤ max k (Int.toNat
      ⌊((max 1 trees0 : ℕ) : ℚ) * ((max 1 leaf0 : ℕ) : ℚ) * max (1/10) mult0⌋))
    (hinj : List.Pairwise (fun p1 p2 : String × Vec =>
      scoreMetric metric q p1.2 ≠ scoreMetric metric q p2.2) pairs) :
    ((RPForestIndex.init metric trees0 leaf0 mult0).rebuild rng pairs).queryWith
        enumSet q k
      = (FlatIndex.rebuild metric pairs).query q k := by
  set ids := pairs.map Prod.fst with hids
  set vecs := pairs.map Prod.snd with hvecs
  set idx := (RPForestIndex.init metric trees0 leaf0 mult0).rebuild rng pairs
    with hidx
  have hfields : idx.metric = metric ∧ idx.trees = max 1 trees0 ∧
      idx.leaf_size = max 1 leaf0 ∧ idx.candidate_mult = max (1/10) mult0 ∧
      idx.id_to_vec = pairs ∧
      idx.forest = (List.range (max 1 trees0)).map
        (fun t => RPTree.build (max 1 leaf0) (rng t) ids vecs) := by
    rw [hidx, RPForestIndex.rebuild, RPForestIndex.init]
    refine ⟨rfl, rfl, rfl, rfl, ?_, rfl⟩
    exact pyDictOfPairs_eq_self hnodup
  obtain ⟨hm, ht, hl, hcm, hd, hf⟩ := hfields
  have htrees : ∀ t ∈ idx.forest, RPTree.candidates t q = ids := by
    intro t htmem
    rw [hf] at htmem
    obtain ⟨i, _, rfl⟩ := List.mem_map.mp htmem
    rw [RPTree.build_leaf_of_le]
    · rfl
    · calc ids.length = pairs.length := by rw [hids, List.length_map]
        _ ≤ max 1 leaf0 := hleaf
        _ ≤ max (max 1 leaf0) 4 := le_max_left _ _
  have hforest_ne : idx.forest ≠ [] := by
    rw [hf]
    intro hnil
    have hlen := congrArg List.length hnil
    simp at hlen
  obtain ⟨t, ts, hcons⟩ := List.exists_cons_of_ne_nil hforest_ne
  have hidsnd : ids.Nodup := hnodup
  have hlimit_cap : pairs.length ≤ idx.limit k := by
    rw [RPForestIndex.limit, ht, hl, hcm]
    exact hcap
  have hcand : idx.candSet q k = ids := by
    rw [RPForestIndex.candSet, hcons]
    exact collectCandidates_const_from_nil q (idx.limit k) ids hidsnd t ts
      (hcons ▸ htrees)
  have hnotrim : ¬ idx.limit k < (idx.candSet q k).length := by
    rw [hcand, hids, List.length_map]
    omega
  have hcandList : idx.candList enumSet q k = enumSet ids := by
    rw [RPForestIndex.candList, if_neg hnotrim, hcand]
  rw [RPForestIndex.queryWith, if_neg hforest_ne, hcandList]
  have hfun : ∀ p ∈ pairs,
      ((fun cid => (cid, idx.score q (dictGetD idx.id_to_vec cid []))) ∘
        Prod.fst) p = (p.1, scoreMetric metric q p.2) := by
    intro p hp
    have := dictGet_of_mem_nodup hnodup hp
    simp only [Function.comp_apply, RPForestIndex.score, hm, hd, dictGetD, this,
      Option.getD_some]
  have hmap : ids.map (fun cid => (cid, idx.score q (dictGetD idx.id_to_vec cid [])))
      = pairs.map (fun p => (p.1, scoreMetric metric q p.2)) := by
    rw [hids, List.map_map]
    exact List.map_congr_left hfun
  have hscored_flat : (FlatIndex.rebuild metric pairs).scored q
      = pairs.map (fun p => (p.1, scoreMetric metric q p.2)) := by
    cases metric <;>
      simp [FlatIndex.scored, FlatIndex.rebuild, List.zip_map', scoreMetric]
  have hne_scored : List.Pairwise (fun x y : String × ℚ => x.2 ≠ y.2)
      (pairs.map (fun p => (p.1, scoreMetric metric q p.2))) :=
    hinj.map _ (fun _ _ h => h)
  by_cases hpairs : pairs = []
  · subst hpairs
    have hids0 : ids = [] := hids.trans rfl
    rw [hids0]
    have henil : enumSet [] = [] := (henum []).eq_nil
    rw [henil]
    simp [nlargest, FlatIndex.query, FlatIndex.rebuild]
  · have hflat_ids : (FlatIndex.rebuild metric pairs).ids ≠ [] := by
      simp only [FlatIndex.rebuild]
      intro hc
      exact hpairs (by simpa using hc)
    rw [FlatIndex.query, if_neg hflat_ids, hscored_flat]
    have hpermmap : ((enumSet ids).map
        (fun cid => (cid, idx.score q (dictGetD idx.id_to_vec cid [])))).Perm
        (pairs.map (fun p => (p.1, scoreMetric metric q p.2))) := by
      rw [← hmap]
      exact (henum ids).map _
    exact nlargest_eq_of_perm_of_scores_ne k hpermmap hne_scored

/-- Witness for C5 amended: `N = 2`, `leaf_size = 3 ≥ N`, `trees = 1`,
`candidate_mult = 2` (cap `max(1, ⌊6⌋) = 6 ≥ N`), distinct scores, and
the reversed enumeration of the candidate set. -/
theorem C5_rp_degenerates_to_flat_witness :
    ((RPForestIndex.init .l2 1 3 2).rebuild (fun _ _ => [])
        [("a", [1]), ("b", [2])]).queryWith List.reverse [2] 1
      = (FlatIndex.rebuild .l2 [("a", [1]), ("b", [2])]).query [2] 1 :=
  C5_rp_degenerates_to_flat .l2 1 3 2 (fun _ _ => []) List.reverse
    [("a", [1]), ("b", [2])] [2] 1
    (fun s => s.reverse_perm)
    (by decide)
    (by norm_num)
    (by norm_num)
    (by norm_num [List.pairwise_cons, scoreMetric, l2sq])

/-! ## C6: candidate collection and the trim step

`RPForestIndex.query` trims an over-full candidate set with
`list(cand_ids)[:limit]` where `cand_ids` is a Python `set`; the
comment in the source says "trim deterministically by insertion order",
but a `set` does not preserve insertion order — its iteration order
depends on the per-process string hash seed.  The theorem below
evaluates the embedded query at a forest whose candidate set
(`["a", "b", "c"]` in first-collected order) exceeds the cap `1`: under
the identity enumeration the survivor is the earliest-collected `"a"`,
under the equally realizable reversed enumeration it is `"c"`, and the
two outputs differ — the trimmed result is a function of the set's
unspecified iteration order, not of the insertion order. -/

theorem C6_trim_depends_on_set_order :
    ((RPForestIndex.init .l2 1 3 (1/10)).rebuild (fun _ _ => [])
        [("a", [1]), ("b", [2]), ("c", [3])]).candSet [3] 1
      = ["a", "b", "c"] ∧
    ((RPForestIndex.init .l2 1 3 (1/10)).rebuild (fun _ _ => [])
        [("a", [1]), ("b", [2]), ("c", [3])]).queryWith (fun s => s) [3] 1
      = [("a", -4)] ∧
    ((RPForestIndex.init .l2 1 3 (1/10)).rebuild (fun _ _ => [])
        [("a", [1]), ("b", [2]), ("c", [3])]).queryWith List.reverse [3] 1
      = [("c", 0)] ∧
    (∀ s : List String, (List.reverse s).Perm s) ∧
    ((RPForestIndex.init .l2 1 3 (1/10)).rebuild (fun _ _ => [])
        [("a", [1]), ("b", [2]), ("c", [3])]).queryWith List.reverse [3] 1
      ≠ ((RPForestIndex.init .l2 1 3 (1/10)).rebuild (fun _ _ => [])
        [("a", [1]), ("b", [2]), ("c", [3])]).queryWith (fun s => s) [3] 1 := by
  have hb : ∀ rng' : ℕ → Vec, RPTree.build (max 1 3) rng' ["a", "b", "c"]
      [[1], [2], [3]] = ⟨.leaf ["a", "b", "c"]⟩ :=
    fun rng' => RPTree.build_leaf_of_le _ _ _ _ (by norm_num)
  have hidx : (RPForestIndex.init .l2 1 3 (1/10)).rebuild (fun _ _ => [])
      [("a", [1]), ("b", [2]), ("c", [3])] =
      { metric := .l2, trees := max 1 1, leaf_size := max 1 3,
        candidate_mult := max (1/10) (1/10),
        forest := [⟨.leaf ["a", "b", "c"]⟩],
        id_to_vec := [("a", [1]), ("b", [2]), ("c", [3])] } := by
    rw [RPForestIndex.rebuild, RPForestIndex.init]
    simp only [List.range_succ, List.range_zero, List.nil_append,
      List.map_cons, List.map_nil, hb]
    norm_num [pyDictOfPairs, dictSet]
    decide
  have hcand : ((RPForestIndex.init .l2 1 3 (1/10)).rebuild (fun _ _ => [])
      [("a", [1]), ("b", [2]), ("c", [3])]).candSet [3] 1
      = ["a", "b", "c"] := by
    rw [hidx, RPForestIndex.candSet]
    norm_num [RPForestIndex.limit, collectCandidates, RPTree.candidates,
      RPNode.descend, setUpdate, setAdd]
    decide
  have hq1 : ((RPForestIndex.init .l2 1 3 (1/10)).rebuild (fun _ _ => [])
      [("a", [1]), ("b", [2]), ("c", [3])]).queryWith (fun s => s) [3] 1
      = [("a", -4)] := by
    rw [hidx, RPForestIndex.queryWith]
    norm_num [RPForestIndex.limit, RPForestIndex.candSet,
      RPForestIndex.candList, collectCandidates, RPTree.candidates,
      RPNode.descend, setUpdate, setAdd, RPForestIndex.score, scoreMetric,
      l2sq, dictGetD, dictGet, nlargest, keyGe, List.insertionSort,
      List.orderedInsert]
  have hq2 : ((RPForestIndex.init .l2 1 3 (1/10)).rebuild (fun _ _ => [])
      [("a", [1]), ("b", [2]), ("c", [3])]).queryWith List.reverse [3] 1
      = [("c", 0)] := by
    rw [hidx, RPForestIndex.queryWith]
    norm_num [RPForestIndex.limit, RPForestIndex.candSet,
      RPForestIndex.candList, collectCandidates, RPTree.candidates,
      RPNode.descend, setUpdate, setAdd, RPForestIndex.score, scoreMetric,
      l2sq, dictGetD, dictGet, nlargest, keyGe, List.insertionSort,
      List.orderedInsert]
    rw [if_neg (show ¬("a" : String) = "c" by decide),
      if_neg (show ¬("b" : String) = "c" by decide)]
    norm_num
  refine ⟨hcand, hq1, hq2, fun s => s.reverse_perm, ?_⟩
  rw [hq1, hq2]
  decide

/-! ## Filter evaluator (`app/services/filters.py`)

Python values are embedded as `PyVal`.  Python `bool` is a subtype of
`int` (`True == 1`), so booleans are numbers here; `int`/`float` are
both exact rationals.  `datetime` values are opaque timestamps (`dt`);
`datetime.fromisoformat` is stdlib code outside the repository, so the
evaluator is parameterized by the parse function `parseIso` (a `none`
result models a `ValueError`).  Objects carry their attributes, dicts
their string-keyed entries.  Comparisons follow Python 3: `None`,
mixed number/string etc. raise `TypeError`; `dict` equality is compared
entrywise in insertion order here (the claims never compare permuted
dicts). -/

inductive PyVal where
  | none : PyVal
  | num (q : ℚ) : PyVal
  | str (s : String) : PyVal
  | dt (t : ℚ) : PyVal
  | list (xs : List PyVal) : PyVal
  | obj (attrs : List (String × PyVal)) : PyVal
  | dict (entries : List (String × PyVal)) : PyVal

/-- Exceptions of the embedding: Python builtins (`TypeError`,
`KeyError`, `AttributeError`) plus the domain errors of
`app/domain/errors.py` and a WAL I/O failure. -/
inductive PyErr where
  | typeError : PyErr
  | keyError : PyErr
  | attributeError (name : String) : PyErr
  | notFound (what : String) : PyErr
  | conflict (detail : String) : PyErr
  | badRequest (detail : String) : PyErr
  | ioError : PyErr
deriving DecidableEq, Repr

mutual

/-- Python `==` on embedded values. -/
def pyEq : PyVal → PyVal → Bool
  | .none, .none => true
  | .num a, .num b => a = b
  | .str a, .str b => a = b
  | .dt a, .dt b => a = b
  | .list a, .list b => pyEqList a b
  | .obj a, .obj b => pyEqEntries a b
  | .dict a, .dict b => pyEqEntries a b
  | _, _ => false

def pyEqList : List PyVal → List PyVal → Bool
  | [], [] => true
  | a :: as, b :: bs => pyEq a b && pyEqList as bs
  | _, _ => false

def pyEqEntries : List (String × PyVal) → List (String × PyVal) → Bool
  | [], [] => true
  | a :: as, b :: bs => a.1 = b.1 && pyEq a.2 b.2 && pyEqEntries as bs
  | _, _ => false

end

/-- Code-point comparison of strings (Python string ordering). -/
def pyCharsCmp : List Char → List Char → Ordering
  | [], [] => .eq
  | [], _ :: _ => .lt
  | _ :: _, [] => .gt
  | a :: as, b :: bs =>
    if a.val < b.val then .lt
    else if b.val < a.val then .gt
    else pyCharsCmp as bs

mutual

/-- Python 3 ordered comparison: numbers, strings, datetimes and lists
compare within their own type; everything else (in particular anything
against `None`) raises `TypeError`. -/
def pyCompare : PyVal → PyVal → Except PyErr Ordering
  | .num a, .num b => .ok (compare a b)
  | .str a, .str b => .ok (pyCharsCmp a.toList b.toList)
  | .dt a, .dt b => .ok (compare a b)
  | .list a, .list b => pyCompareList a b
  | _, _ => .error .typeError

def pyCompareList : List PyVal → List PyVal → Except PyErr Ordering
  | [], [] => .ok .eq
  | [], _ :: _ => .ok .lt
  | _ :: _, [] => .ok .gt
  | a :: as, b :: bs =>
    match pyCompare a b with
    | .error e => .error e
    | .ok .lt => .ok .lt
    | .ok .gt => .ok .gt
    | .ok .eq => pyCompareList as bs

end

/-- Python `sub in s` on strings: substring containment. -/
def pyStrContains (s sub : String) : Bool :=
  decide (sub.toList <:+: s.toList)

/-- An element a Python `set()` constructor would reject
(`TypeError: unhashable type`): lists, dicts and pydantic models. -/
def pyUnhashable : PyVal → Bool
  | .list _ => true
  | .dict _ => true
  | .obj _ => true
  | _ => false

/-- `_op_eq(v, arg): return v == arg`. -/
def opEq (v arg : PyVal) : Except PyErr Bool := .ok (pyEq v arg)

/-- `_op_neq(v, arg): return v != arg`. -/
def opNeq (v arg : PyVal) : Except PyErr Bool := .ok (!pyEq v arg)

/-- `_op_in`: membership (by `==`) when the argument is a sequence,
else `False`. -/
def opIn (v arg : PyVal) : Except PyErr Bool :=
  match arg with
  | .list xs => .ok (xs.any (fun x => pyEq v x))
  | _ => .ok false

/-- `_op_contains`: `(arg in v) if isinstance(v, str) else False`; a
non-string `arg` against a string `v` raises `TypeError` in Python. -/
def opContains (v arg : PyVal) : Except PyErr Bool :=
  match v with
  | .str s =>
    match arg with
    | .str sub => .ok (pyStrContains s sub)
    | _ => .error .typeError
  | _ => .ok false

/-- `_op_contains_any`: short-circuiting `any(sub in v for sub in arg)`
over a string `v`; `False` when `v` is not a string or `arg` not a
sequence. -/
def opContainsAny (v arg : PyVal) : Except PyErr Bool :=
  match v with
  | .str s =>
    match arg with
    | .list xs => opContainsAnyGo s xs
    | _ => .ok false
  | _ => .ok false
where
  opContainsAnyGo (s : String) : List PyVal → Except PyErr Bool
  | [] => .ok false
  | .str sub :: rest =>
    if pyStrContains s sub then .ok true else opContainsAnyGo s rest
  | _ :: _ => .error .typeError

/-- `_op_any`: overlap of two sequences (`set(v)` then membership); the
`set(v)` construction raises on unhashable elements of `v`. -/
def opAny (v arg : PyVal) : Except PyErr Bool :=
  match v, arg with
  | .list xs, .list ys =>
    if xs.any pyUnhashable then .error .typeError
    else .ok (ys.any (fun y => xs.any (fun x => pyEq y x)))
  | _, _ => .ok false

/-- `_op_ge(v, arg): return v >= arg`. -/
def opGe (v arg : PyVal) : Except PyErr Bool :=
  (pyCompare v arg).map (fun o => o ≠ .lt)

/-- `_op_le`. -/
def opLe (v arg : PyVal) : Except PyErr Bool :=
  (pyCompare v arg).map (fun o => o ≠ .gt)

/-- `_op_gt`. -/
def opGt (v arg : PyVal) : Except PyErr Bool :=
  (pyCompare v arg).map (fun o => o = .gt)

/-- `_op_lt`. -/
def opLt (v arg : PyVal) : Except PyErr Bool :=
  (pyCompare v arg).map (fun o => o = .lt)

/-- The `_OPS` table; `none` for an unknown operator (skipped by
`match_obj`). -/
def opsLookup (op : String) : Option (PyVal → PyVal → Except PyErr Bool) :=
  match op with
  | "eq" => some opEq
  | "neq" => some opNeq
  | "in" => some opIn
  | "contains" => some opContains
  | "any" => some opAny
  | ">=" => some opGe
  | "<=" => some opLe
  | ">" => some opGt
  | "<" => some opLt
  | "contains_any" => some opContainsAny
  | _ => none

/-- `path.split(".")` (kernel-computable splitting on `'.'`). -/
def splitChars (sep : Char) : List Char → List String
  | [] => [""]
  | c :: cs =>
    match splitChars sep cs with
    | [] => [""]
    | s :: rest =>
      if c = sep then "" :: s :: rest
      else (String.mk (c :: s.toList)) :: rest

def pySplitDot (path : String) : List String :=
  splitChars '.' path.toList

/-- `field_path.endswith("created_at")` (kernel-computable). -/
def pyEndsWithCreatedAt (path : String) : Bool :=
  decide ("created_at".toList <:+ path.toList)

/-- One step of `_get_field`'s walk:
`getattr(cur, part) if hasattr(cur, part) else (cur.get(part) if
isinstance(cur, dict) else None)`.  Objects resolve attributes; dicts
resolve keys (a missing key yields `None`); anything else yields
`None`. -/
def pyGetStep (cur : PyVal) (part : String) : PyVal :=
  match cur with
  | .obj attrs => (dictGet attrs part).getD .none
  | .dict entries => (dictGet entries part).getD .none
  | _ => .none

/-- The walk of `_get_field`, with the `if cur is None: break`
short-circuit. -/
def getFieldParts : PyVal → List String → PyVal
  | cur, [] => cur
  | cur, part :: rest =>
    match pyGetStep cur part with
    | .none => .none
    | v => getFieldParts v rest

/-- `_get_field(obj, path)`. -/
def getField (obj : PyVal) (path : String) : PyVal :=
  getFieldParts obj (pySplitDot path)

/-- `_coerce_for_cmp(field_path, value)`: on a `*created_at*` field a
string is parsed as ISO-8601 (unparseable strings stay strings) and a
datetime stays a datetime; other values and other fields pass
through. -/
def coerceForCmp (parseIso : String → Option ℚ) (fieldPath : String)
    (v : PyVal) : PyVal :=
  if pyEndsWithCreatedAt fieldPath then
    match v with
    | .str s =>
      match parseIso s with
      | some t => .dt t
      | Option.none => .str s
    | .dt t => .dt t
    | _ => v
  else v

/-- The inner clause loop of `match_obj` for one field: unknown
operators are skipped; the first failing clause fails the field; errors
propagate. -/
def matchClauses (parseIso : String → Option ℚ) (field : String)
    (v : PyVal) : List (String × PyVal) → Except PyErr Bool
  | [] => .ok true
  | (op, arg) :: rest =>
    match opsLookup op with
    | Option.none => matchClauses parseIso field v rest
    | some fn =>
      match fn (coerceForCmp parseIso field v) (coerceForCmp parseIso field arg) with
      | .error e => .error e
      | .ok b => if b then matchClauses parseIso field v rest else .ok false

/-- `match_obj(obj, spec)`: all fields ANDed; an empty spec matches. -/
def matchObj (parseIso : String → Option ℚ) (obj : PyVal) :
    List (String × List (String × PyVal)) → Except PyErr Bool
  | [] => .ok true
  | (field, ops) :: rest =>
    match matchClauses parseIso field (getField obj field) ops with
    | .error e => .error e
    | .ok b => if b then matchObj parseIso obj rest else .ok false

/-! ## C7: filter null semantics -/

theorem coerce_none (parseIso : String → Option ℚ) (f : String) :
    coerceForCmp parseIso f PyVal.none = PyVal.none := by
  unfold coerceForCmp
  split <;> rfl

theorem coerce_ne_none (parseIso : String → Option ℚ) (f : String)
    (v : PyVal) (hv : v ≠ PyVal.none) :
    coerceForCmp parseIso f v ≠ PyVal.none := by
  unfold coerceForCmp
  by_cases hc : pyEndsWithCreatedAt f = true
  · rw [if_pos hc]
    cases v with
    | str s =>
      cases hp : parseIso s with
      | none => simp [hp]
      | some t => simp [hp]
    | none => exact absurd rfl hv
    | dt t => simp
    | num q => simp
    | list xs => simp
    | obj a => simp
    | dict a => simp
  · rw [if_neg hc]
    exact hv

theorem pyEq_none_iff (v : PyVal) : pyEq PyVal.none v = true ↔ v = PyVal.none := by
  cases v <;> simp [pyEq]

/-- Single-field `match_obj` through a null field value. -/
theorem matchObj_single_null (parseIso : String → Option ℚ) (o : PyVal)
    (f : String) (h0 : getField o f = PyVal.none)
    (ops : List (String × PyVal)) :
    matchObj parseIso o [(f, ops)] =
      match matchClauses parseIso f PyVal.none ops with
      | .error e => .error e
      | .ok b => if b then .ok true else .ok false := by
  simp only [matchObj, h0]

/-- **C7 counterexample.**  The claim says a null field value fails every
operator clause except an explicit `eq: null`; but on an object without
the field, `{"missing": {"neq": 1}}` *passes* (`None != 1` is `True` in
Python), so `match_obj` returns `True`. -/
theorem C7_counterexample :
    getField (.obj [("a", .num 1)]) "missing" = PyVal.none ∧
    matchObj (fun _ => Option.none) (.obj [("a", .num 1)])
      [("missing", [("neq", .num 1)])] = .ok true :=
  ⟨rfl, rfl⟩

/-- **C7 amended.**  A dotted path whose attribute step fails resolves to
null, and a null field value behaves as follows: `eq` passes exactly for
an explicit null argument; `neq` *passes* for every non-null argument;
`in` passes exactly when the argument sequence itself contains null;
`contains`, `contains_any` and `any` fail; the four ordered comparisons
raise `TypeError` instead of returning a boolean. -/
theorem C7_null_semantics (parseIso : String → Option ℚ)
    (o : PyVal) (f : String) (h0 : getField o f = PyVal.none) (arg : PyVal) :
    (∀ (attrs : List (String × PyVal)) (part : String) (rest : List String),
      dictGet attrs part = Option.none →
      getFieldParts (.obj attrs) (part :: rest) = PyVal.none) ∧
    matchObj parseIso o [(f, [("eq", arg)])]
      = .ok (pyEq PyVal.none (coerceForCmp parseIso f arg)) ∧
    (arg = PyVal.none → matchObj parseIso o [(f, [("eq", arg)])] = .ok true) ∧
    (arg ≠ PyVal.none → matchObj parseIso o [(f, [("eq", arg)])] = .ok false) ∧
    (arg ≠ PyVal.none → matchObj parseIso o [(f, [("neq", arg)])] = .ok true) ∧
    (∀ xs : List PyVal, matchObj parseIso o [(f, [("in", .list xs)])]
      = .ok (xs.any (fun x => pyEq PyVal.none x))) ∧
    matchObj parseIso o [(f, [("contains", arg)])] = .ok false ∧
    matchObj parseIso o [(f, [("contains_any", arg)])] = .ok false ∧
    matchObj parseIso o [(f, [("any", arg)])] = .ok false ∧
    matchObj parseIso o [(f, [(">=", arg)])] = .error .typeError ∧
    matchObj parseIso o [(f, [("<=", arg)])] = .error .typeError ∧
    matchObj parseIso o [(f, [(">", arg)])] = .error .typeError ∧
    matchObj parseIso o [(f, [("<", arg)])] = .error .typeError := by
  have hmiss : ∀ (attrs : List (String × PyVal)) (part : String)
      (rest : List String), dictGet attrs part = Option.none →
      getFieldParts (.obj attrs) (part :: rest) = PyVal.none := by
    intro attrs part rest hmem
    simp only [getFieldParts, pyGetStep, hmem, Option.getD_none]
  have hcmp : pyCompare PyVal.none (coerceForCmp parseIso f arg)
      = .error .typeError := by
    cases harg : coerceForCmp parseIso f arg <;> rfl
  refine ⟨hmiss, ?_, ?_, ?_, ?_, ?_, ?_, ?_, ?_, ?_, ?_, ?_, ?_⟩
  · rw [matchObj_single_null parseIso o f h0]
    simp only [matchClauses, opsLookup, coerce_none, opEq]
    by_cases hb : pyEq PyVal.none (coerceForCmp parseIso f arg) = true
    · simp [hb, matchClauses]
    · simp only [Bool.not_eq_true] at hb
      simp [hb]
  · intro ha
    subst ha
    rw [matchObj_single_null parseIso o f h0]
    simp [matchClauses, opsLookup, coerce_none, opEq, pyEq]
  · intro ha
    have hco : coerceForCmp parseIso f arg ≠ PyVal.none :=
      coerce_ne_none parseIso f arg ha
    have hne : pyEq PyVal.none (coerceForCmp parseIso f arg) = false := by
      rw [← Bool.not_eq_true, pyEq_none_iff]
      exact hco
    rw [matchObj_single_null parseIso o f h0]
    simp [matchClauses, opsLookup, coerce_none, opEq, hne]
  · intro ha
    have hco : coerceForCmp parseIso f arg ≠ PyVal.none :=
      coerce_ne_none parseIso f arg ha
    have hne : pyEq PyVal.none (coerceForCmp parseIso f arg) = false := by
      rw [← Bool.not_eq_true, pyEq_none_iff]
      exact hco
    rw [matchObj_single_null parseIso o f h0]
    simp [matchClauses, opsLookup, coerce_none, opNeq, hne]
  · intro xs
    rw [matchObj_single_null parseIso o f h0]
    have hcl : coerceForCmp parseIso f (.list xs) = .list xs := by
      unfold coerceForCmp
      split <;> rfl
    simp only [matchClauses, opsLookup, coerce_none, hcl, opIn]
    by_cases hb : xs.any (fun x => pyEq PyVal.none x) = true
    · simp [hb, matchClauses]
    · simp only [Bool.not_eq_true] at hb
      simp [hb]
  · rw [matchObj_single_null parseIso o f h0]
    simp [matchClauses, opsLookup, coerce_none, opContains]
  · rw [matchObj_single_null parseIso o f h0]
    simp [matchClauses, opsLookup, coerce_none, opContainsAny]
  · rw [matchObj_single_null parseIso o f h0]
    simp [matchClauses, opsLookup, coerce_none, opAny]
  · rw [matchObj_single_null parseIso o f h0]
    simp [matchClauses, opsLookup, coerce_none, opGe, hcmp, Except.map]
  · rw [matchObj_single_null parseIso o f h0]
    simp [matchClauses, opsLookup, coerce_none, opLe, hcmp, Except.map]
  · rw [matchObj_single_null parseIso o f h0]
    simp [matchClauses, opsLookup, coerce_none, opGt, hcmp, Except.map]
  · rw [matchObj_single_null parseIso o f h0]
    simp [matchClauses, opsLookup, coerce_none, opLt, hcmp, Except.map]

/-- Witness for C7 amended at a concrete object and argument. -/
theorem C7_null_semantics_witness :
    getField (.obj [("a", .num 1)]) "missing" = PyVal.none ∧
    PyVal.num 2 ≠ PyVal.none ∧
    matchObj (fun _ => Option.none) (.obj [("a", .num 1)])
      [("missing", [("eq", .num 2)])] = .ok false ∧
    matchObj (fun _ => Option.none) (.obj [("a", .num 1)])
      [("missing", [(">=", .num 2)])] = .error .typeError := by
  have h := C7_null_semantics (fun _ => Option.none) (.obj [("a", .num 1)])
    "missing" rfl (.num 2)
  have hne : PyVal.num 2 ≠ PyVal.none := fun hc => by cases hc
  refine ⟨rfl, hne, h.2.2.2.1 hne, ?_⟩
  exact h.2.2.2.2.2.2.2.2.2.1

/-! ## Domain entities (`app/domain/models.py`)

UUIDs are external inputs (`uuid4()`), embedded as `ℕ` supplied by the
caller; timestamps (`datetime.now(...)`, `created_at` defaults) are
abstract rationals supplied by the caller.  `model_dump(mode="json")`
followed by re-validation is lossless for the declared fields, so
serialization is the identity on these structures.

`Library` is embedded exactly as declared at `models.py:54-60`: it has
**no `index_states` field**, although `memory.py:77`, `indexing.py:74`
and the repository's own unit test `test_indexing_restore.py:50` read or
assign `lib.index_states`; on a pydantic model reading an undeclared
attribute raises `AttributeError` (and assigning one raises too).  The
places that touch `index_states` are embedded as raising
`attributeError "index_states"` — this is the subject of C4. -/

structure ChunkMeta where
  created_at : ℚ
  name : Option String
  tags : List String
  custom : Option PyVal

structure DocumentMeta where
  created_at : ℚ
  author : Option String
  source_uri : Option String
  tags : List String
deriving DecidableEq, Repr

structure LibraryMeta where
  created_at : ℚ
  owner : Option String
  topic : Option String
deriving DecidableEq, Repr

inductive IndexAlgo where
  | flat : IndexAlgo
  | rp : IndexAlgo
deriving DecidableEq, Repr

structure IndexState where
  built : Bool
  algo : Option IndexAlgo
  metric : Metric
  params : List (String × PyVal)
  size : ℕ
  last_built_at : Option ℚ

/-- `IndexState()` defaults. -/
def IndexState.default : IndexState :=
  { built := false, algo := Option.none, metric := .cosine, params := [],
    size := 0, last_built_at := Option.none }

structure Chunk where
  id : ℕ
  library_id : ℕ
  document_id : ℕ
  text : String
  embedding : Option Vec
  metadata : ChunkMeta

structure Document where
  id : ℕ
  library_id : ℕ
  title : String
  metadata : DocumentMeta
  chunk_ids : List ℕ
deriving DecidableEq, Repr

structure Library where
  id : ℕ
  name : String
  description : Option String
  metadata : LibraryMeta
  index_state : IndexState
  embedding_dim : Option ℕ

/-! Pydantic `==` compares models field by field with Python `==`;
dict-valued fields compare as Python dicts. -/

def chunkMetaEqB (a b : ChunkMeta) : Bool :=
  a.created_at = b.created_at && a.name = b.name && a.tags = b.tags &&
    (match a.custom, b.custom with
     | Option.none, Option.none => true
     | some x, some y => pyEq x y
     | _, _ => false)

def indexStateEqB (a b : IndexState) : Bool :=
  a.built = b.built && a.algo = b.algo && a.metric = b.metric &&
    dictEqBy pyEq a.params b.params && a.size = b.size &&
    a.last_built_at = b.last_built_at

def chunkEqB (a b : Chunk) : Bool :=
  a.id = b.id && a.library_id = b.library_id &&
    a.document_id = b.document_id && a.text = b.text &&
    a.embedding = b.embedding && chunkMetaEqB a.metadata b.metadata

def documentEqB (a b : Document) : Bool := a = b

def libraryEqB (a b : Library) : Bool :=
  a.id = b.id && a.name = b.name && a.description = b.description &&
    a.metadata = b.metadata && indexStateEqB a.index_state b.index_state &&
    a.embedding_dim = b.embedding_dim

/-! ## In-memory repository state (`app/repo/memory.py`)

The five data members of `InMemoryRepo` (the per-library `locks` map
holds thread-synchronization objects, not data, and is omitted). -/

structure Repo where
  libraries : List (ℕ × Library)
  documents : List (ℕ × Document)
  chunks : List (ℕ × Chunk)
  by_library_docs : List (ℕ × List ℕ)
  by_document_chunks : List (ℕ × List ℕ)

def Repo.empty : Repo := ⟨[], [], [], [], []⟩

/-- Python `==` comparison of two repository states: each entity dict
compared as a Python dict (order-insensitive, values by pydantic `==`),
each secondary map compared as a dict of sets. -/
def repoEqB (a b : Repo) : Bool :=
  dictEqBy libraryEqB a.libraries b.libraries &&
  dictEqBy documentEqB a.documents b.documents &&
  dictEqBy chunkEqB a.chunks b.chunks &&
  dictEqBy setEq a.by_library_docs b.by_library_docs &&
  dictEqBy setEq a.by_document_chunks b.by_document_chunks

/-- `d.setdefault(k, set()).add(v)`. -/
def dictSetdefaultAdd (d : List (ℕ × List ℕ)) (k v : ℕ) : List (ℕ × List ℕ) :=
  match dictGet d k with
  | some s => dictSet d k (setAdd s v)
  | Option.none => dictSet d k (setAdd [] v)

/-! ## WAL records (`§6.2`, as emitted by the services)

`ts` fields carry no replay semantics and are omitted.  Update payloads
carry exactly the keys the emitting service writes (`library.update`:
changed `name`/`description`; `chunk.update`: always `text` and
`embedding`). -/

inductive WalEntry where
  | libraryCreate (data : Library) : WalEntry
  | libraryUpdate (id : ℕ) (name : Option String)
      (description : Option String) : WalEntry
  | libraryDelete (id : ℕ) : WalEntry
  | documentCreate (data : Document) : WalEntry
  | documentUpdate (id : ℕ) (title : Option String)
      (metadata : Option DocumentMeta) : WalEntry
  | documentDelete (id : ℕ) : WalEntry
  | chunkCreate (data : Chunk) : WalEntry
  | chunkUpdate (id : ℕ) (text : String) (embedding : Option Vec) : WalEntry
  | chunkDelete (id : ℕ) : WalEntry
  | libraryIndexState (library_id : ℕ) (index_state : IndexState)
      (index_states : Option (List (String × IndexState))) : WalEntry
  | unknown : WalEntry

/-- `InMemoryRepo.apply_wal_entry` (`memory.py:97-165`): one mutation,
no logging.  Updates of a missing id raise `KeyError`
(`self.libraries[lid]` etc.); the `library.index_state` arm reads
`lib.index_states`, a field `Library` does not declare
(`models.py:54-60`), which raises `AttributeError` — embedded as the
corresponding error. -/
def Repo.applyWalEntry (r : Repo) : WalEntry → Except PyErr Repo
  | .libraryCreate lib =>
    .ok { r with libraries := dictSet r.libraries lib.id lib }
  | .libraryUpdate lid name description =>
    match dictGet r.libraries lid with
    | Option.none => .error .keyError
    | some cur =>
      let patched : Library :=
        { cur with
            name := name.getD cur.name
            description := (match description with
              | some d => some d
              | Option.none => cur.description) }
      .ok { r with libraries := dictSet r.libraries lid patched }
  | .libraryDelete lid =>
    .ok { r with libraries := dictPop r.libraries lid
                 by_library_docs := dictPop r.by_library_docs lid }
  | .documentCreate doc =>
    .ok { r with documents := dictSet r.documents doc.id doc
                 by_library_docs :=
                   dictSetdefaultAdd r.by_library_docs doc.library_id doc.id }
  | .documentUpdate did title metadata =>
    match dictGet r.documents did with
    | Option.none => .error .keyError
    | some cur =>
      let patched : Document :=
        { cur with
            title := title.getD cur.title
            metadata := metadata.getD cur.metadata }
      .ok { r with documents := dictSet r.documents did patched }
  | .documentDelete did =>
    .ok { r with documents := dictPop r.documents did
                 by_document_chunks := dictPop r.by_document_chunks did }
  | .chunkCreate chk =>
    .ok { r with chunks := dictSet r.chunks chk.id chk
                 by_document_chunks :=
                   dictSetdefaultAdd r.by_document_chunks chk.document_id chk.id }
  | .chunkUpdate cid text embedding =>
    match dictGet r.chunks cid with
    | Option.none => .error .keyError
    | some cur =>
      let patched : Chunk := { cur with text := text, embedding := embedding }
      .ok { r with chunks := dictSet r.chunks cid patched }
  | .chunkDelete cid =>
    match dictGet r.chunks cid with
    | Option.none => .ok r
    | some c =>
      let r1 := { r with chunks := dictPop r.chunks cid }
      match dictGet r1.by_document_chunks c.document_id with
      | some s =>
        let byDoc := dictSet r1.by_document_chunks c.document_id (setDiscard s cid)
        .ok { r1 with by_document_chunks := byDoc }
      | Option.none => .ok r1
  | .libraryIndexState lid _st _states =>
    match dictGet r.libraries lid with
    | Option.none => .error .keyError
    | some _ => .error (.attributeError "index_states")
  | .unknown => .ok r

/-- WAL replay in file order (`bootstrap_from_disk`, `singletons.py`). -/
def replay (entries : List WalEntry) (r : Repo) : Except PyErr Repo :=
  entries.foldlM Repo.applyWalEntry r

/-! ## Snapshot serialization (`memory.py:47-94`) -/

/-- The snapshot image `{schema_version, libraries, documents, chunks}`. -/
structure Image where
  schema_version : ℕ
  libraries : List (ℕ × Library)
  documents : List (ℕ × Document)
  chunks : List (ℕ × Chunk)

/-- `InMemoryRepo.dump_json` (pydantic json dump is lossless on the
declared fields, so entity serialization is the identity). -/
def Repo.dump_json (r : Repo) : Image :=
  { schema_version := 1
    libraries := r.libraries
    documents := r.documents
    chunks := r.chunks }

/-- `InMemoryRepo.hydrate`: clear everything and rebuild from the
image.  The legacy-snapshot branch at `memory.py:76-80` evaluates
`lib.index_states` whenever `lib.index_state.built` and
`lib.index_state.algo` are truthy — an attribute `Library` does not
declare, hence `AttributeError`. -/
def Repo.hydrate (image : Image) : Except PyErr Repo := do
  let libs ← image.libraries.foldlM
    (fun (acc : List (ℕ × Library)) (p : ℕ × Library) => do
      if p.2.index_state.built ∧ p.2.index_state.algo.isSome then
        throw (PyErr.attributeError "index_states")
      else
        pure (dictSet acc p.1 p.2))
    []
  let (docs, byLib) := image.documents.foldl
    (fun (acc : List (ℕ × Document) × List (ℕ × List ℕ)) p =>
      (dictSet acc.1 p.1 p.2,
       dictSetdefaultAdd acc.2 p.2.library_id p.1))
    ([], [])
  let (chks, byDoc) := image.chunks.foldl
    (fun (acc : List (ℕ × Chunk) × List (ℕ × List ℕ)) p =>
      (dictSet acc.1 p.1 p.2,
       dictSetdefaultAdd acc.2 p.2.document_id p.1))
    ([], [])
  pure { libraries := libs, documents := docs, chunks := chks,
         by_library_docs := byLib, by_document_chunks := byDoc }

/-! ## Dimension invariant (`app/services/validation.py`) -/

/-- `ensure_dim(repo, lib_id, vec)`: on an unset `embedding_dim` *sets*
it to `len(vec)` (a repository mutation) and returns it; on a mismatch
raises `BadRequest` without mutating; a missing library raises
`KeyError` (`repo.libraries[lib_id]`). -/
def ensure_dim (r : Repo) (libId : ℕ) (vec : Vec) :
    Except PyErr ℕ × Repo :=
  match dictGet r.libraries libId with
  | Option.none => (.error .keyError, r)
  | some lib =>
    match lib.embedding_dim with
    | Option.none =>
      let lib1 : Library := { lib with embedding_dim := some vec.length }
      (.ok vec.length, { r with libraries := dictSet r.libraries libId lib1 })
    | some d =>
      if d = vec.length then (.ok d, r)
      else (.error (.badRequest "Embedding dimension mismatch"), r)

/-! ## Mutation services

(`app/services/libraries.py`, `documents.py`, `chunks.py`.)  Each takes
the freshly drawn uuid / timestamps as inputs, the embedder as a pure
`String → Vec` (`embedder.embed([text])[0]`), and the WAL store as a
function `walAppend` whose `.error` result models an I/O failure of
`DiskStore.append_wal`; services return the Python result (or the
raised error), the repository state after the call, and the list of WAL
entries successfully appended.  Mutations performed before a raise
persist, as in Python. -/

/-- `LibraryService.create` (`libraries.py:26-39`). -/
def LibraryService.create (r : Repo) (newId : ℕ) (name : String)
    (description : Option String) (meta : LibraryMeta)
    (walAppend : WalEntry → Except PyErr Unit) :
    Except PyErr Library × Repo × List WalEntry :=
  let lib : Library :=
    { id := newId, name := name, description := description,
      metadata := meta, index_state := IndexState.default,
      embedding_dim := Option.none }
  let r1 : Repo :=
    { r with libraries := dictSet r.libraries lib.id lib
             by_library_docs := dictSet r.by_library_docs lib.id [] }
  match walAppend (.libraryCreate lib) with
  | .error e => (.error e, r1, [])
  | .ok _ => (.ok lib, r1, [.libraryCreate lib])

/-- `DocumentService.create` (`documents.py:28-41`). -/
def DocumentService.create (r : Repo) (newId libId : ℕ) (title : String)
    (meta : DocumentMeta) (walAppend : WalEntry → Except PyErr Unit) :
    Except PyErr Document × Repo × List WalEntry :=
  let doc : Document :=
    { id := newId, library_id := libId, title := title,
      metadata := meta, chunk_ids := [] }
  let r1 : Repo :=
    { r with documents := dictSet r.documents doc.id doc
             by_library_docs := dictSetdefaultAdd r.by_library_docs libId doc.id
             by_document_chunks := dictSet r.by_document_chunks doc.id [] }
  match walAppend (.documentCreate doc) with
  | .error e => (.error e, r1, [])
  | .ok _ => (.ok doc, r1, [.documentCreate doc])

/-- `ChunkService.create` (`chunks.py:25-66`): referential checks, then
(under the write lock) optional embedding with `ensure_dim`, then the
in-memory mutation of `chunks`, `by_document_chunks` and the owning
document's `chunk_ids`, then the WAL append. -/
def ChunkService.create (r : Repo) (newId : ℕ) (embedder : String → Vec)
    (libId docId : ℕ) (text : String) (meta : ChunkMeta)
    (computeEmbedding : Bool)
    (walAppend : WalEntry → Except PyErr Unit) :
    Except PyErr Chunk × Repo × List WalEntry :=
  if (dictGet r.libraries libId).isNone then
    (.error (.notFound "Library"), r, [])
  else
    match dictGet r.documents docId with
    | Option.none => (.error (.notFound "Document"), r, [])
    | some doc0 =>
      if doc0.library_id ≠ libId then
        (.error (.badRequest "Document does not belong to library"), r, [])
      else
        let chunk0 : Chunk :=
          { id := newId, library_id := libId, document_id := docId,
            text := text, embedding := Option.none, metadata := meta }
        let withEmb : Except PyErr Chunk × Repo :=
          if computeEmbedding then
            let emb := embedder text
            match ensure_dim r libId emb with
            | (.error e, r') => (.error e, r')
            | (.ok _, r') => (.ok { chunk0 with embedding := some emb }, r')
          else (.ok chunk0, r)
        match withEmb with
        | (.error e, r') => (.error e, r', [])
        | (.ok chunk, r') =>
          let r2 : Repo :=
            { r' with
                chunks := dictSet r'.chunks chunk.id chunk
                by_document_chunks :=
                  dictSetdefaultAdd r'.by_document_chunks docId chunk.id
                documents := (match dictGet r'.documents docId with
                  | some doc => dictSet r'.documents docId
                      { doc with chunk_ids := doc.chunk_ids ++ [chunk.id] }
                  | Option.none => r'.documents) }
          match walAppend (.chunkCreate chunk) with
          | .error e => (.error e, r2, [])
          | .ok _ => (.ok chunk, r2, [.chunkCreate chunk])

/-- `ChunkService.update` (`chunks.py:85-118`): with a new `text`, the
chunk's `text` is assigned *before* the embedding is recomputed and
`ensure_dim` runs — a dimension failure propagates after the text
mutation has already happened. -/
def ChunkService.update (r : Repo) (chunkId : ℕ)
    (text : Option String) (embedder : String → Vec)
    (walAppend : WalEntry → Except PyErr Unit) :
    Except PyErr Chunk × Repo × List WalEntry :=
  match dictGet r.chunks chunkId with
  | Option.none => (.error (.notFound "Chunk"), r, [])
  | some c =>
    let libId := c.library_id
    match text with
    | Option.none => (.ok c, r, [])
    | some t =>
      let c1 : Chunk := { c with text := t }
      let r1 : Repo := { r with chunks := dictSet r.chunks chunkId c1 }
      let emb := embedder t
      match ensure_dim r1 libId emb with
      | (.error e, r2) => (.error e, r2, [])
      | (.ok _, r2) =>
        let c2 : Chunk := { c1 with embedding := some emb }
        let r3 : Repo := { r2 with chunks := dictSet r2.chunks chunkId c2 }
        match walAppend (.chunkUpdate chunkId t (some emb)) with
        | .error e => (.error e, r3, [])
        | .ok _ => (.ok c2, r3, [.chunkUpdate chunkId t (some emb)])

/-- `ChunkService.delete` (`chunks.py:123-160`): idempotent no-op on a
missing chunk; otherwise discard from `by_document_chunks` (leaving the
set entry in place, possibly empty), filter the document's `chunk_ids`,
pop the chunk, and append the WAL entry. -/
def ChunkService.delete (r : Repo) (docId chunkId : ℕ)
    (walAppend : WalEntry → Except PyErr Unit) :
    Except PyErr Unit × Repo × List WalEntry :=
  match dictGet r.documents docId with
  | Option.none => (.error (.notFound "Document"), r, [])
  | some _ =>
    match dictGet r.chunks chunkId with
    | Option.none => (.ok (), r, [])
    | some c =>
      if (dictGet r.documents docId).any (fun d => d.library_id ≠ c.library_id) then
        (.error (.badRequest "Document does not belong to chunk's library"), r, [])
      else
        let byDoc := match dictGet r.by_document_chunks docId with
          | some s => dictSet r.by_document_chunks docId (setDiscard s chunkId)
          | Option.none => r.by_document_chunks
        let docs := match dictGet r.documents docId with
          | some d => dictSet r.documents docId
              { d with chunk_ids := d.chunk_ids.filter (· ≠ chunkId) }
          | Option.none => r.documents
        let r1 : Repo :=
          { r with by_document_chunks := byDoc, documents := docs,
                   chunks := dictPop r.chunks chunkId }
        match walAppend (.chunkDelete chunkId) with
        | .error e => (.error e, r1, [])
        | .ok _ => (.ok (), r1, [.chunkDelete chunkId])

/-- `LibraryService.mark_index_built` (`libraries.py:120-141`): writes
only the declared `index_state` field and appends a
`library.index_state` WAL entry without an `index_states` payload. -/
def LibraryService.markIndexBuilt (r : Repo) (libId : ℕ) (algo : IndexAlgo)
    (metric : Metric) (size : ℕ) (now : ℚ)
    (walAppend : WalEntry → Except PyErr Unit) :
    Except PyErr Unit × Repo × List WalEntry :=
  match dictGet r.libraries libId with
  | Option.none => (.error .keyError, r, [])
  | some lib =>
    let st : IndexState :=
      { built := true, algo := some algo, metric := metric, params := [],
        size := size, last_built_at := some now }
    let lib1 : Library := { lib with index_state := st }
    let r1 : Repo :=
      { r with libraries := dictSet r.libraries libId lib1 }
    match walAppend (.libraryIndexState libId st Option.none) with
    | .error e => (.error e, r1, [])
    | .ok _ => (.ok (), r1, [.libraryIndexState libId st Option.none])

/-! ## C1 / C4 / C8: durability scenarios

A concrete run from the empty repository: create library `0`, document
`1` (in library `0`), chunk `2` (in document `1`, without embedding).
All timestamps are `0`, the embedder is a stub. -/

/-- A WAL store whose appends succeed. -/
def okStore : WalEntry → Except PyErr Unit := fun _ => .ok ()

/-- A WAL store whose append raises an I/O error
(`DiskStore.append_wal` failing in `open`/`write`/`fsync`). -/
def failStore : WalEntry → Except PyErr Unit := fun _ => .error .ioError

def stubEmbedder : String → Vec := fun _ => [1]

def c1Step1 : Except PyErr Library × Repo × List WalEntry :=
  LibraryService.create Repo.empty 0 "L" Option.none
    ⟨0, Option.none, Option.none⟩ okStore

def c1Repo1 : Repo := c1Step1.2.1

def c1Step2 : Except PyErr Document × Repo × List WalEntry :=
  DocumentService.create c1Repo1 1 0 "D" ⟨0, Option.none, Option.none, []⟩
    okStore

def c1Repo2 : Repo := c1Step2.2.1

def c1Step3 : Except PyErr Chunk × Repo × List WalEntry :=
  ChunkService.create c1Repo2 2 stubEmbedder 0 1 "hello"
    ⟨0, Option.none, [], Option.none⟩ false okStore

/-- The state after the three mutations applied directly. -/
def c1DirectRepo : Repo := c1Step3.2.1

/-- The WAL the three mutations appended, in order. -/
def c1Wal : List WalEntry := c1Step1.2.2 ++ c1Step2.2.2 ++ c1Step3.2.2

/-- The state after bootstrap from an absent snapshot plus replay of
that WAL. -/
def c1Replayed : Repo :=
  match replay c1Wal Repo.empty with
  | .ok r => r
  | .error _ => Repo.empty

def exceptOk {ε α : Type} : Except ε α → Bool
  | .ok _ => true
  | .error _ => false

/-- **C1** (code bug).  Replay is *not* equivalent to direct mutation:
after `library.create`, `document.create`, `chunk.create` the directly
mutated state has `documents[1].chunk_ids = [2]` (appended by
`ChunkService.create`, `chunks.py:55`), but replaying the same WAL
yields `chunk_ids = []` — `apply_wal_entry`'s `chunk.create` arm
(`memory.py:131-134`) never touches the owning document's `chunk_ids`.
The two states differ under Python `==`. -/
theorem C1_replay_not_equivalent :
    exceptOk c1Step3.1 = true ∧
    exceptOk (replay c1Wal Repo.empty) = true ∧
    (dictGet c1DirectRepo.documents 1).map Document.chunk_ids = some [2] ∧
    (dictGet c1Replayed.documents 1).map Document.chunk_ids = some [] ∧
    repoEqB c1Replayed c1DirectRepo = false := by
  refine ⟨rfl, rfl, rfl, rfl, ?_⟩
  decide

/-- The chunk-create call of the scenario issued against a WAL store
whose append raises. -/
def c8Run : Except PyErr Chunk × Repo × List WalEntry :=
  ChunkService.create c1Repo2 2 stubEmbedder 0 1 "hello"
    ⟨0, Option.none, [], Option.none⟩ false failStore

def isIoError {α : Type} : Except PyErr α → Bool
  | .error .ioError => true
  | _ => false

/-- **C8** (code bug).  When the WAL append raises, `ChunkService.create`
propagates the error but leaves the already-applied in-memory mutation
in place — the chunk is still in `chunks`, in `by_document_chunks` and
in the document's `chunk_ids`, no WAL line was written, and the state
differs from the pre-call state: the mutation is *not* rolled back, so
an uncommitted mutation survives in memory. -/
theorem C8_wal_failure_not_rolled_back :
    isIoError c8Run.1 = true ∧
    (dictGet c8Run.2.1.chunks 2).isSome = true ∧
    (dictGet c8Run.2.1.documents 1).map Document.chunk_ids = some [2] ∧
    c8Run.2.2 = [] ∧
    repoEqB c8Run.2.1 c1Repo2 = false := by
  refine ⟨rfl, rfl, rfl, rfl, ?_⟩
  decide

/-- A reachable state whose library has a built `index_state`:
`mark_index_built` after the three creates. -/
def c4Step : Except PyErr Unit × Repo × List WalEntry :=
  LibraryService.markIndexBuilt c1DirectRepo 0 .flat .cosine 1 7 okStore

def c4Repo : Repo := c4Step.2.1

def raisesIndexStatesAttrErr {α : Type} : Except PyErr α → Bool
  | .error (.attributeError s) => s = "index_states"
  | _ => false

/-- **C4** (code bug).  The snapshot round trip does not reproduce a
reachable state with a built index: `hydrate(dump_json(R))` crashes with
`AttributeError` because the legacy branch `memory.py:77` reads
`lib.index_states`, a field `Library` (`models.py:54-60`) does not
declare — so in particular no per-algorithm `index_states` map can
survive any round trip (`dump_json` cannot emit an undeclared field
either). -/
theorem C4_roundtrip_crashes_on_built_index :
    exceptOk c4Step.1 = true ∧
    (dictGet c4Repo.libraries 0).map (fun l => l.index_state.built)
      = some true ∧
    raisesIndexStatesAttrErr (Repo.hydrate (Repo.dump_json c4Repo)) = true := by
  refine ⟨rfl, rfl, ?_⟩
  decide

/-! ## Index selection (`app/services/indexing.py:101-112`) -/

/-- The per-library index caches of `IndexingService`. -/
structure IndexerCaches where
  flat_indices : List (ℕ × FlatIndex)
  rp_indices : List (ℕ × RPForestIndex)

/-- The result of `get_available_index`: `("rp", inst)`,
`("flat", inst)` or `(None, None)`. -/
inductive AvailRes where
  | rp (inst : RPForestIndex) : AvailRes
  | flat (inst : FlatIndex) : AvailRes
  | nothing : AvailRes

/-- `IndexingService.get_available_index(lib_id, prefer)`: the literal
if-chain of the source — preferred kind when live, then RP, then flat,
then `(None, None)`. -/
def getAvailableIndex (c : IndexerCaches) (libId : ℕ)
    (prefer : Option IndexAlgo) : AvailRes :=
  match prefer, dictGet c.rp_indices libId with
  | some .rp, some i => .rp i
  | _, _ =>
    match prefer, dictGet c.flat_indices libId with
    | some .flat, some i => .flat i
    | _, _ =>
      match dictGet c.rp_indices libId with
      | some i => .rp i
      | Option.none =>
        match dictGet c.flat_indices libId with
        | some i => .flat i
        | Option.none => .nothing

/-- **C9 counterexample.**  With only an RP index live,
`get_available_index(lib, prefer="flat")` returns the RP index — not
`(None, None)` and an index of the other kind, contradicting the
claim. -/
theorem C9_counterexample :
    getAvailableIndex
        ⟨[], [(0, RPForestIndex.init .cosine 1 1 1)]⟩ 0 (some .flat)
      = .rp (RPForestIndex.init .cosine 1 1 1) := rfl

/-- **C9 amended.**  `get_available_index` returns the preferred kind
when an index of that kind is live; otherwise it falls back to the
RP-then-flat preference order regardless of `prefer` (in particular,
`prefer="flat"` with only RP live returns the RP index, and
`prefer="rp"` with only flat live returns the flat index); `(None,
None)` is returned exactly when no index at all is live; with `prefer`
unset, RP is preferred over flat. -/
theorem C9_get_available_index (c : IndexerCaches) (libId : ℕ) :
    (∀ i, dictGet c.rp_indices libId = some i →
      getAvailableIndex c libId (some .rp) = .rp i) ∧
    (∀ i, dictGet c.flat_indices libId = some i →
      getAvailableIndex c libId (some .flat) = .flat i) ∧
    (∀ prefer, dictGet c.rp_indices libId = Option.none →
      dictGet c.flat_indices libId = Option.none →
      getAvailableIndex c libId prefer = .nothing) ∧
    (∀ i, dictGet c.rp_indices libId = some i →
      dictGet c.flat_indices libId = Option.none →
      getAvailableIndex c libId (some .flat) = .rp i) ∧
    (∀ i, dictGet c.flat_indices libId = some i →
      dictGet c.rp_indices libId = Option.none →
      getAvailableIndex c libId (some .rp) = .flat i) ∧
    (∀ i, dictGet c.rp_indices libId = some i →
      getAvailableIndex c libId Option.none = .rp i) ∧
    (∀ i, dictGet c.rp_indices libId = Option.none →
      dictGet c.flat_indices libId = some i →
      getAvailableIndex c libId Option.none = .flat i) := by
  refine ⟨?_, ?_, ?_, ?_, ?_, ?_, ?_⟩
  · intro i h
    simp [getAvailableIndex, h]
  · intro i h
    cases hrp : dictGet c.rp_indices libId <;>
      simp [getAvailableIndex, h, hrp]
  · intro prefer h1 h2
    cases prefer with
    | none => simp [getAvailableIndex, h1, h2]
    | some p => cases p <;> simp [getAvailableIndex, h1, h2]
  · intro i h1 h2
    simp [getAvailableIndex, h1, h2]
  · intro i h1 h2
    simp [getAvailableIndex, h1, h2]
  · intro i h
    simp [getAvailableIndex, h]
  · intro i h1 h2
    simp [getAvailableIndex, h1, h2]

/-- Witness for C9 amended at concrete caches (RP live, flat absent). -/
theorem C9_get_available_index_witness :
    dictGet (⟨[], [(0, RPForestIndex.init .cosine 1 1 1)]⟩ : IndexerCaches).rp_indices 0
      = some (RPForestIndex.init .cosine 1 1 1) ∧
    getAvailableIndex ⟨[], [(0, RPForestIndex.init .cosine 1 1 1)]⟩ 0
      (some .rp) = .rp (RPForestIndex.init .cosine 1 1 1) := by
  refine ⟨rfl, ?_⟩
  exact (C9_get_available_index ⟨[], [(0, RPForestIndex.init .cosine 1 1 1)]⟩ 0).1
    (RPForestIndex.init .cosine 1 1 1) rfl

/-! ## Search service (`app/services/search.py`)

`str(uuid)` / `UUID(sid)`: uuids are abstract ids (`ℕ`); their string
form is an injective encoding with a definable inverse — the embedding
uses the unary encoding `uidStr`, whose particular shape is irrelevant
(only injectivity and `uidOfStr ∘ uidStr = id` are ever used). -/

def uidStr (n : ℕ) : String := String.mk (List.replicate n 'u')

def uidOfStr (s : String) : ℕ := s.toList.length

theorem uidOfStr_uidStr (n : ℕ) : uidOfStr (uidStr n) = n := by
  simp [uidStr, uidOfStr]

/-! Views of the entities as Python objects for the filter evaluator
(`match_obj` walks attributes). -/

def optStrPy : Option String → PyVal
  | some s => .str s
  | Option.none => .none

def chunkMetaToPy (m : ChunkMeta) : PyVal :=
  .obj [("created_at", .dt m.created_at), ("name", optStrPy m.name),
        ("tags", .list (m.tags.map .str)),
        ("custom", m.custom.getD .none)]

def chunkToPy (c : Chunk) : PyVal :=
  .obj [("id", .str (uidStr c.id)), ("library_id", .str (uidStr c.library_id)),
        ("document_id", .str (uidStr c.document_id)), ("text", .str c.text),
        ("embedding", (match c.embedding with
          | some v => .list (v.map .num)
          | Option.none => .none)),
        ("metadata", chunkMetaToPy c.metadata)]

def documentMetaToPy (m : DocumentMeta) : PyVal :=
  .obj [("created_at", .dt m.created_at), ("author", optStrPy m.author),
        ("source_uri", optStrPy m.source_uri),
        ("tags", .list (m.tags.map .str))]

def documentToPy (d : Document) : PyVal :=
  .obj [("id", .str (uidStr d.id)), ("library_id", .str (uidStr d.library_id)),
        ("title", .str d.title), ("metadata", documentMetaToPy d.metadata),
        ("chunk_ids", .list (d.chunk_ids.map (fun i => .str (uidStr i))))]

def libraryMetaToPy (m : LibraryMeta) : PyVal :=
  .obj [("created_at", .dt m.created_at), ("owner", optStrPy m.owner),
        ("topic", optStrPy m.topic)]

def indexStateToPy (s : IndexState) : PyVal :=
  .obj [("built", .num (if s.built then 1 else 0)),
        ("algo", (match s.algo with
          | some .flat => .str "flat"
          | some .rp => .str "rp"
          | Option.none => .none)),
        ("metric", .str (match s.metric with
          | .cosine => "cosine"
          | .l2 => "l2")),
        ("params", .dict s.params), ("size", .num s.size),
        ("last_built_at", (match s.last_built_at with
          | some t => .dt t
          | Option.none => .none))]

def libraryToPy (l : Library) : PyVal :=
  .obj [("id", .str (uidStr l.id)), ("name", .str l.name),
        ("description", optStrPy l.description),
        ("metadata", libraryMetaToPy l.metadata),
        ("index_state", indexStateToPy l.index_state),
        ("embedding_dim", (match l.embedding_dim with
          | some d => .num d
          | Option.none => .none))]

/-- A field sub-spec: dotted path → (op → argument). -/
abbrev FilterDict := List (String × List (String × PyVal))

/-- `FilterSpec` of `app/domain/dtos.py`. -/
structure FilterSpec where
  chunk : Option FilterDict
  document : Option FilterDict
  library : Option FilterDict

inductive SearchAlgo where
  | auto : SearchAlgo
  | flat : SearchAlgo
  | rp : SearchAlgo
deriving DecidableEq, Repr

/-- `SearchRequest` of `app/domain/dtos.py`. -/
structure SearchRequest where
  query_text : Option String
  query_embedding : Option Vec
  k : ℕ
  algo : SearchAlgo
  metric : Metric
  filters : Option FilterSpec

/-- `SearchHit` of `app/domain/dtos.py`. -/
structure SearchHit where
  chunk_id : String
  document_id : String
  library_id : String
  score : ℚ
  text : String

/-- `SearchService._ensure_query_vec`: prefer `query_embedding`, else
embed a non-empty `query_text` (`if not req.query_text` also rejects
the empty string), then `ensure_dim` — which may set the library's
dimension as a side effect. -/
def ensureQueryVec (embedder : String → Vec) (r : Repo) (libId : ℕ)
    (req : SearchRequest) : Except PyErr Vec × Repo :=
  let qE : Except PyErr Vec :=
    match req.query_embedding with
    | some q => .ok q
    | Option.none =>
      match req.query_text with
      | Option.none => .error (.badRequest "Provide query_text or query_embedding")
      | some t =>
        if t = "" then .error (.badRequest "Provide query_text or query_embedding")
        else .ok (embedder t)
  match qE with
  | .error e => (.error e, r)
  | .ok q =>
    match ensure_dim r libId q with
    | (.error e, r') => (.error e, r')
    | (.ok _, r') => (.ok q, r')

/-- `SearchService._prefilter_ids`: without filters, the union of the
library's chunk-id sets; with filters, the set of chunk ids whose
document, library and chunk sub-filters all pass (document- and
library-level matches are evaluated per document; the chunk-level match
is short-circuited when they fail).  Filter evaluation errors
(`TypeError` from comparisons) propagate. -/
def prefilterIds (parseIso : String → Option ℚ) (r : Repo) (libId : ℕ)
    (filters : Option FilterSpec) : Except PyErr (List ℕ) :=
  match filters with
  | Option.none =>
    .ok ((dictGetD r.by_library_docs libId []).foldl
      (fun s did => setUpdate s (dictGetD r.by_document_chunks did [])) [])
  | some fs =>
    match dictGet r.libraries libId with
    | Option.none => .error .keyError
    | some lib =>
      (dictGetD r.by_library_docs libId []).foldlM
        (fun allowed did =>
          match dictGet r.documents did with
          | Option.none => .error .keyError
          | some doc => do
            let docOk ← matchObj parseIso (documentToPy doc) (fs.document.getD [])
            let libOk ← matchObj parseIso (libraryToPy lib) (fs.library.getD [])
            (dictGetD r.by_document_chunks did []).foldlM
              (fun allowed2 cid =>
                match dictGet r.chunks cid with
                | Option.none => .error .keyError
                | some c =>
                  if docOk ∧ libOk then do
                    let cOk ← matchObj parseIso (chunkToPy c) (fs.chunk.getD [])
                    pure (if cOk then setAdd allowed2 cid else allowed2)
                  else pure allowed2)
              allowed)
        []

/-- `SearchService._rank_over_ids`: exact scores over the given string
ids from the repository's current embeddings, skipping embedding-less
chunks; a missing chunk id raises `KeyError`. -/
def rankOverIds (r : Repo) (ids : List String) (q : Vec) (metric : Metric) :
    Except PyErr (List (String × ℚ)) :=
  ids.foldlM
    (fun scored sid =>
      match dictGet r.chunks (uidOfStr sid) with
      | Option.none => .error .keyError
      | some c =>
        match c.embedding with
        | Option.none => .ok scored
        | some v => .ok (scored ++ [(sid, scoreMetric metric q v)]))
    []

/-- The `(chunk_id, embedding)` pairs `_lazy_build_flat_for` collects
over the library (set iteration modelled in stored insertion order). -/
def lazyPairs (r : Repo) (libId : ℕ) : Except PyErr (List (String × Vec)) :=
  (dictGetD r.by_library_docs libId []).foldlM
    (fun pairs did =>
      (dictGetD r.by_document_chunks did []).foldlM
        (fun pairs2 cid =>
          match dictGet r.chunks cid with
          | Option.none => .error .keyError
          | some c =>
            match c.embedding with
            | some v => .ok (pairs2 ++ [(uidStr c.id, v)])
            | Option.none => .ok pairs2)
        pairs)
    []

/-- The search-service state: the embedder, the indexer caches, the
service-local `_lazy_flat` cache, and the set-enumeration parameter the
RP query needs (see `RPForestIndex.queryWith`). -/
structure SearchCtx where
  embedder : String → Vec
  caches : IndexerCaches
  lazy_flat : List (ℕ × FlatIndex)
  enumSet : List String → List String

/-- `SearchService._lazy_build_flat_for`: reuse a cached lazy instance
when present (keeping its *original* metric — `rebuild` does not change
the metric), else a fresh `FlatIndex(metric)`. -/
def lazyBuildFlatFor (ctx : SearchCtx) (r : Repo) (libId : ℕ)
    (metric : Metric) : Except PyErr FlatIndex :=
  match lazyPairs r libId with
  | .error e => .error e
  | .ok pairs =>
    let m := match dictGet ctx.lazy_flat libId with
      | some f => f.metric
      | Option.none => metric
    .ok (FlatIndex.rebuild m pairs)

/-- The index the planner selected for this query. -/
inductive SelIdx where
  | flat (inst : FlatIndex) : SelIdx
  | rp (inst : RPForestIndex) : SelIdx

/-- Step 2 of the planner (`search.py:97-117`): honor the requested
algorithm; `flat` falls back to an ephemeral lazy build, `rp` fails
with `BadRequest` when no RP index is live, `auto` takes whatever is
live (RP preferred) or lazily builds a flat. -/
def selectIndex (ctx : SearchCtx) (r : Repo) (libId : ℕ)
    (req : SearchRequest) : Except PyErr SelIdx :=
  match req.algo with
  | .flat =>
    match getAvailableIndex ctx.caches libId (some .flat) with
    | .flat inst => .ok (.flat inst)
    | _ =>
      match lazyBuildFlatFor ctx r libId req.metric with
      | .error e => .error e
      | .ok f => .ok (.flat f)
  | .rp =>
    match getAvailableIndex ctx.caches libId (some .rp) with
    | .rp inst => .ok (.rp inst)
    | _ => .error (.badRequest "Requested RP index not built. Build it via /index:build")
  | .auto =>
    match getAvailableIndex ctx.caches libId Option.none with
    | .rp inst => .ok (.rp inst)
    | .flat inst => .ok (.flat inst)
    | .nothing =>
      match lazyBuildFlatFor ctx r libId req.metric with
      | .error e => .error e
      | .ok f => .ok (.flat f)

/-- `allowed_str = {str(i) for i in allowed_ids_set} if allowed_ids_set
else None` — Python truthiness makes the *empty* allowed set collapse
to `None` (= "no restriction" downstream on the RP path). -/
def allowedStrOf (allowed : List ℕ) : Option (List String) :=
  if allowed.isEmpty then Option.none else some (allowed.map uidStr)

/-- Step 4 of the planner: top-k per branch (`search.py:128-142`). -/
def searchTopK (ctx : SearchCtx) (r : Repo) (req : SearchRequest)
    (q : Vec) (allowed : List ℕ) : SelIdx → Except PyErr (List (String × ℚ))
  | .flat idx =>
    if req.filters.isSome then
      match rankOverIds r (idx.ids.filter (fun sid => uidOfStr sid ∈ allowed))
          q req.metric with
      | .error e => .error e
      | .ok scored => .ok (nlargest req.k scored)
    else .ok (idx.query q req.k)
  | .rp idx =>
    let cand := idx.queryWith ctx.enumSet q req.k
    let cand2 :=
      if req.filters.isSome then
        cand.filter (fun p =>
          match allowedStrOf allowed with
          | Option.none => true
          | some as2 => p.1 ∈ as2)
      else cand
    .ok (nlargest req.k cand2)

/-- Step 5 of the planner: project `(chunk_id, score)` pairs to
`SearchHit`s through `repo.chunks[UUID(cid)]`. -/
def projectHits (r : Repo) (topk : List (String × ℚ)) :
    Except PyErr (List SearchHit) :=
  topk.foldlM
    (fun hits p =>
      match dictGet r.chunks (uidOfStr p.1) with
      | Option.none => .error .keyError
      | some c =>
        .ok (hits ++ [{ chunk_id := uidStr c.id,
                        document_id := uidStr c.document_id,
                        library_id := uidStr c.library_id,
                        score := p.2, text := c.text }]))
    []

/-- `SearchService.search` (`search.py:88-156`), under the library read
lock: existence check, query vector (with the `ensure_dim` side
effect), index selection, pre-filter, per-branch top-k, projection.
The returned repository is the post-`ensure_dim` state: no later step
mutates it. -/
def SearchService.search (ctx : SearchCtx) (parseIso : String → Option ℚ)
    (r : Repo) (libId : ℕ) (req : SearchRequest) :
    Except PyErr (List SearchHit) × Repo :=
  if (dictGet r.libraries libId).isNone then (.error (.notFound "Library"), r)
  else
    match ensureQueryVec ctx.embedder r libId req with
    | (.error e, r1) => (.error e, r1)
    | (.ok q, r1) =>
      match selectIndex ctx r1 libId req with
      | .error e => (.error e, r1)
      | .ok sel =>
        match prefilterIds parseIso r1 libId req.filters with
        | .error e => (.error e, r1)
        | .ok allowed =>
          match searchTopK ctx r1 req q allowed sel with
          | .error e => (.error e, r1)
          | .ok topk =>
            match projectHits r1 topk with
            | .error e => (.error e, r1)
            | .ok hits => (.ok hits, r1)

/-! ## C10: the dimension side effect of search -/

def isDimMismatch {α : Type} : Except PyErr α → Bool
  | .error (.badRequest s) => s = "Embedding dimension mismatch"
  | _ => false

/-- The repository search returns is always the post-`ensure_dim`
state: no step after `_ensure_query_vec` mutates the repository. -/
theorem search_snd (ctx : SearchCtx) (parseIso : String → Option ℚ)
    (r : Repo) (libId : ℕ) (req : SearchRequest)
    (hlib : (dictGet r.libraries libId).isNone = false) :
    (SearchService.search ctx parseIso r libId req).2
      = (ensureQueryVec ctx.embedder r libId req).2 := by
  unfold SearchService.search
  rw [if_neg (by simp [hlib])]
  rcases hq : ensureQueryVec ctx.embedder r libId req with ⟨qe, r1⟩
  cases qe with
  | error e => rfl
  | ok q =>
    dsimp only
    cases hsel : selectIndex ctx r1 libId req with
    | error e => rfl
    | ok sel =>
      dsimp only
      cases hal : prefilterIds parseIso r1 libId req.filters with
      | error e => rfl
      | ok allowed =>
        dsimp only
        cases htk : searchTopK ctx r1 req q allowed sel with
        | error e => rfl
        | ok topk =>
          dsimp only
          cases hpj : projectHits r1 topk with
          | error e => rfl
          | ok hits => rfl

/-- **C10 counterexample.**  "Any embedding of a different length,
stored or query, is rejected with BadRequest *before any state
change*" fails for `ChunkService.update`: after a search with a
length-2 `query_embedding` fixed the library's dimension, an update
whose recomputed embedding has length 1 raises the BadRequest — but the
chunk's `text` was already assigned (`chunks.py:98-103`), so the failed
update leaves the text changed (and unlogged). -/
theorem C10_counterexample :
    exceptOk (SearchService.search ⟨fun _ => [1], ⟨[], []⟩, [], fun s => s⟩
        (fun _ => Option.none) c1DirectRepo 0
        ⟨Option.none, some [5, 5], 5, .flat, .l2, Option.none⟩).1 = true ∧
    ((SearchService.search ⟨fun _ => [1], ⟨[], []⟩, [], fun s => s⟩
        (fun _ => Option.none) c1DirectRepo 0
        ⟨Option.none, some [5, 5], 5, .flat, .l2, Option.none⟩).2.libraries.head?).map
        (fun p => p.2.embedding_dim) = some (some 2) ∧
    (let r1 := (SearchService.search ⟨fun _ => [1], ⟨[], []⟩, [], fun s => s⟩
        (fun _ => Option.none) c1DirectRepo 0
        ⟨Option.none, some [5, 5], 5, .flat, .l2, Option.none⟩).2
     let upd := ChunkService.update r1 2 (some "changed") (fun _ => [1]) okStore
     isDimMismatch upd.1 = true ∧
       (dictGet upd.2.1.chunks 2).map Chunk.text = some "changed" ∧
       upd.2.2 = [] ∧
       repoEqB upd.2.1 r1 = false) := by
  refine ⟨rfl, rfl, rfl, rfl, rfl, ?_⟩
  decide

/-- **C10 amended.**  For a library whose `embedding_dim` is unset, a
search carrying a length-`d` `query_embedding` sets `embedding_dim := d`
and changes nothing else in the repository (the returned state is
exactly the input state with that one field updated); thereafter a
query vector of a different length is rejected with BadRequest and the
repository unchanged, and a chunk *create* whose computed embedding has
a different length is rejected with BadRequest and the repository
unchanged — but a chunk *update* whose recomputed embedding has a
different length is rejected only after the chunk's `text` has been
assigned: the returned state is the input state with the chunk's text
replaced, and no WAL entry is appended. -/
theorem C10_dim_side_effect (ctx : SearchCtx) (parseIso : String → Option ℚ)
    (r : Repo) (libId : ℕ) (req : SearchRequest) (lib : Library) (q : Vec)
    (hlib : dictGet r.libraries libId = some lib)
    (hq : req.query_embedding = some q) :
    (lib.embedding_dim = Option.none →
      (SearchService.search ctx parseIso r libId req).2
        = { r with libraries := (dictSet r.libraries libId
              { lib with embedding_dim := some q.length }) }) ∧
    (∀ d, lib.embedding_dim = some d → q.length ≠ d →
      SearchService.search ctx parseIso r libId req
        = (.error (.badRequest "Embedding dimension mismatch"), r)) ∧
    (∀ d newId embedder docId text meta walAppend doc,
      lib.embedding_dim = some d →
      dictGet r.documents docId = some doc → doc.library_id = libId →
      (embedder text).length ≠ d →
      ChunkService.create r newId embedder libId docId text meta true walAppend
        = (.error (.badRequest "Embedding dimension mismatch"), r, [])) ∧
    (∀ d chunkId c t embedder walAppend,
      dictGet r.chunks chunkId = some c → c.library_id = libId →
      lib.embedding_dim = some d → (embedder t).length ≠ d →
      ChunkService.update r chunkId (some t) embedder walAppend
        = (.error (.badRequest "Embedding dimension mismatch"),
           { r with chunks := dictSet r.chunks chunkId { c with text := t } },
           [])) := by
  have hlibne : (dictGet r.libraries libId).isNone = false := by
    rw [hlib]; rfl
  refine ⟨?_, ?_, ?_, ?_⟩
  · intro hdim
    rw [search_snd ctx parseIso r libId req hlibne]
    unfold ensureQueryVec
    rw [hq]
    unfold ensure_dim
    rw [hlib]
    simp only [hdim]
  · intro d hdim hne
    unfold SearchService.search
    rw [if_neg (by simp [hlibne])]
    have he : ensureQueryVec ctx.embedder r libId req
        = (.error (.badRequest "Embedding dimension mismatch"), r) := by
      unfold ensureQueryVec
      rw [hq]
      unfold ensure_dim
      rw [hlib]
      simp only [hdim]
      rw [if_neg (fun hc => hne hc.symm)]
    rw [he]
  · intro d newId embedder docId text meta walAppend doc hdim hdoc hdoclib hne
    unfold ChunkService.create
    rw [if_neg (by simp [hlib])]
    rw [hdoc]
    dsimp only
    rw [if_neg (by simp [hdoclib])]
    have hed : ensure_dim r libId (embedder text)
        = (.error (.badRequest "Embedding dimension mismatch"), r) := by
      unfold ensure_dim
      rw [hlib]
      simp only [hdim]
      rw [if_neg (fun hc => hne hc.symm)]
    simp only [hed, if_true]
  · intro d chunkId c t embedder walAppend hchunk hclib hdim hne
    unfold ChunkService.update
    rw [hchunk]
    have hed : ensure_dim { r with chunks := dictSet r.chunks chunkId { c with text := t } }
        c.library_id (embedder t)
        = (.error (.badRequest "Embedding dimension mismatch"),
           { r with chunks := dictSet r.chunks chunkId { c with text := t } }) := by
      unfold ensure_dim
      dsimp only
      rw [hclib, hlib]
      simp only [hdim]
      rw [if_neg (fun hc => hne hc.symm)]
    simp only [hed]

/-- The library of the C1 scenario, as stored (dimension unset). -/
def c10Lib : Library :=
  { id := 0, name := "L", description := Option.none,
    metadata := ⟨0, Option.none, Option.none⟩,
    index_state := IndexState.default, embedding_dim := Option.none }

/-- Witness for C10 amended at the library of the C1 scenario and a
length-2 query vector. -/
theorem C10_dim_side_effect_witness :
    dictGet c1DirectRepo.libraries 0 = some c10Lib ∧
    (SearchService.search ⟨fun _ => [1], ⟨[], []⟩, [], fun s => s⟩
        (fun _ => Option.none) c1DirectRepo 0
        ⟨Option.none, some [5, 5], 5, .flat, .l2, Option.none⟩).2
      = { c1DirectRepo with libraries := (dictSet c1DirectRepo.libraries 0
            { c10Lib with embedding_dim := some 2 }) } := by
  refine ⟨rfl, ?_⟩
  have h := (C10_dim_side_effect ⟨fun _ => [1], ⟨[], []⟩, [], fun s => s⟩
    (fun _ => Option.none) c1DirectRepo 0
    ⟨Option.none, some [5, 5], 5, .flat, .l2, Option.none⟩
    c10Lib [5, 5] rfl rfl).1 rfl
  exact h

/-! ## C2: search filter soundness and completeness -/

/-- A deterministic embedder: `"alpha" ↦ [1]`, anything else `↦ [2]`. -/
def c2Embedder : String → Vec := fun t => if t = "alpha" then [1] else [2]

def c2Step3 : Except PyErr Chunk × Repo × List WalEntry :=
  ChunkService.create c1Repo2 2 c2Embedder 0 1 "alpha"
    ⟨0, Option.none, [], Option.none⟩ true okStore

def c2Step4 : Except PyErr Chunk × Repo × List WalEntry :=
  ChunkService.create c2Step3.2.1 3 c2Embedder 0 1 "beta"
    ⟨0, Option.none, [], Option.none⟩ true okStore

/-- Library 0, document 1, embedded chunks 2 (`"alpha"`, `[1]`) and 3
(`"beta"`, `[2]`), `embedding_dim = 1`. -/
def c2Repo : Repo := c2Step4.2.1

/-- A live RP index over the library's two pairs (`leaf_size = 4 ≥ N`,
cap `max(k, 8)`). -/
def c2RpInst : RPForestIndex :=
  (RPForestIndex.init .l2 1 4 2).rebuild (fun _ _ => [])
    [(uidStr 2, [1]), (uidStr 3, [2])]

def c2Ctx : SearchCtx := ⟨c2Embedder, ⟨[], [(0, c2RpInst)]⟩, [], fun s => s⟩

/-- A chunk filter nothing passes (`metadata.name` is unset on both
chunks, and null fails `eq: "nope"`). -/
def c2Filters : FilterSpec :=
  ⟨some [("metadata.name", [("eq", .str "nope")])], Option.none, Option.none⟩

def c2Req : SearchRequest :=
  ⟨Option.none, some [2], 5, .rp, .l2, some c2Filters⟩

def c2Search : Except PyErr (List SearchHit) × Repo :=
  SearchService.search c2Ctx (fun _ => Option.none) c2Repo 0 c2Req

def exceptHits : Except PyErr (List SearchHit) → List SearchHit
  | .ok h => h
  | .error _ => []

/-- **C2 counterexample.**  With filters present and *no* chunk passing
the predicate, the RP path returns the unfiltered RP top-k instead of
the empty result: `allowed_str = {...} if allowed_ids_set else None`
(`search.py:121`) collapses the *empty* allowed set to `None`, which
downstream means "no restriction" — so both returned hits fail the
predicate and the result is nonempty, violating both soundness and the
"empty predicate set ⇒ empty result" clause of the claim. -/
theorem C2_counterexample :
    prefilterIds (fun _ => Option.none) c2Repo 0 (some c2Filters) = .ok [] ∧
    exceptOk c2Search.1 = true ∧
    exceptHits c2Search.1 =
      [{ chunk_id := uidStr 3, document_id := uidStr 1, library_id := uidStr 0,
         score := 0, text := "beta" },
       { chunk_id := uidStr 2, document_id := uidStr 1, library_id := uidStr 0,
         score := -1, text := "alpha" }] ∧
    (dictGet c2Repo.chunks 3).map
        (fun c => matchObj (fun _ => Option.none) (chunkToPy c)
          (c2Filters.chunk.getD []))
      = some (.ok false) := by
  have hleaf : ∀ rng' : ℕ → Vec, RPTree.build (max 1 4) rng'
      [uidStr 2, uidStr 3] [[1], [2]] = ⟨.leaf [uidStr 2, uidStr 3]⟩ :=
    fun rng' => RPTree.build_leaf_of_le _ _ _ _ (by norm_num)
  have hinst : c2RpInst =
      { metric := .l2, trees := max 1 1, leaf_size := max 1 4,
        candidate_mult := max (1/10) 2,
        forest := [⟨.leaf [uidStr 2, uidStr 3]⟩],
        id_to_vec := [(uidStr 2, [1]), (uidStr 3, [2])] } := by
    rw [c2RpInst, RPForestIndex.rebuild, RPForestIndex.init]
    simp only [List.range_succ, List.range_zero, List.nil_append,
      List.map_cons, List.map_nil, hleaf]
    norm_num [pyDictOfPairs, dictSet]
    decide
  have hu2 : uidStr 2 = "uu" := rfl
  have hu3 : uidStr 3 = "uuu" := rfl
  have hrp : c2RpInst.queryWith (fun s => s) [2] 5
      = [(uidStr 3, 0), (uidStr 2, -1)] := by
    rw [hinst, RPForestIndex.queryWith, hu2, hu3]
    norm_num [RPForestIndex.limit, RPForestIndex.candSet,
      RPForestIndex.candList, collectCandidates, RPTree.candidates,
      RPNode.descend, setUpdate, setAdd, RPForestIndex.score, scoreMetric,
      l2sq, dictGetD, dictGet, nlargest, keyGe, List.insertionSort,
      List.orderedInsert]
    rw [if_neg (show ¬("uu" : String) = "uuu" by decide)]
    norm_num [List.take]
  have hq : ensureQueryVec c2Ctx.embedder c2Repo 0 c2Req
      = (.ok [2], c2Repo) := rfl
  have hsel : selectIndex c2Ctx c2Repo 0 c2Req = .ok (.rp c2RpInst) := rfl
  have hpre : prefilterIds (fun _ => Option.none) c2Repo 0 c2Req.filters
      = .ok [] := rfl
  have htk : searchTopK c2Ctx c2Repo c2Req [2] [] (.rp c2RpInst)
      = .ok [(uidStr 3, 0), (uidStr 2, -1)] := by
    simp only [searchTopK, c2Ctx, c2Req, hrp]
    norm_num [allowedStrOf, nlargest, keyGe, List.insertionSort,
      List.orderedInsert, List.filter]
  have hsearch : c2Search
      = (.ok [{ chunk_id := uidStr 3, document_id := uidStr 1,
                library_id := uidStr 0, score := 0, text := "beta" },
              { chunk_id := uidStr 2, document_id := uidStr 1,
                library_id := uidStr 0, score := -1, text := "alpha" }],
         c2Repo) := by
    rw [show c2Search = SearchService.search c2Ctx (fun _ => Option.none)
        c2Repo 0 c2Req from rfl]
    unfold SearchService.search
    rw [if_neg (by decide)]
    rw [hq]
    dsimp only
    rw [hsel]
    dsimp only
    rw [hpre]
    dsimp only
    rw [htk]
    dsimp only
    rw [show projectHits c2Repo [(uidStr 3, 0), (uidStr 2, -1)]
        = .ok [{ chunk_id := uidStr 3, document_id := uidStr 1,
                 library_id := uidStr 0, score := 0, text := "beta" },
               { chunk_id := uidStr 2, document_id := uidStr 1,
                 library_id := uidStr 0, score := -1, text := "alpha" }]
        from rfl]
  refine ⟨rfl, ?_, ?_, rfl⟩
  · rw [hsearch]
    rfl
  · rw [hsearch]
    rfl

/-! Helper lemmas for the amended C2: membership and bounds for
`nlargest`, and `foldlM` specifications of the search pipeline. -/

/-- The `SearchHit` that `projectHits` builds from a chunk and a score. -/
def mkHit (c : Chunk) (s : ℚ) : SearchHit :=
  { chunk_id := uidStr c.id, document_id := uidStr c.document_id,
    library_id := uidStr c.library_id, score := s, text := c.text }

theorem exceptBind_ok {ε α β : Type} (a : α) (f : α → Except ε β) :
    ((.ok a : Except ε α) >>= f) = f a := rfl

theorem exceptBind_error {ε α β : Type} (e : ε) (f : α → Except ε β) :
    ((.error e : Except ε α) >>= f) = .error e := rfl

theorem exceptPure {ε α : Type} (a : α) :
    (pure a : Except ε α) = .ok a := rfl

theorem mem_setAdd {K : Type} [DecidableEq K] {s : List K} {k x : K} :
    x ∈ setAdd s k ↔ x ∈ s ∨ x = k := by
  unfold setAdd
  by_cases h : k ∈ s
  · rw [if_pos h]
    exact ⟨Or.inl, fun hx => hx.elim id (fun he => he ▸ h)⟩
  · rw [if_neg h]
    simp

theorem dictGet_mem {K V : Type} [DecidableEq K] :
    ∀ {d : List (K × V)} {k : K} {v : V}, dictGet d k = some v → (k, v) ∈ d := by
  intro d
  induction d with
  | nil => intro k v h; simp [dictGet] at h
  | cons p d ih =>
    intro k v h
    simp only [dictGet] at h
    by_cases hp : p.1 = k
    · rw [if_pos hp] at h
      injection h with h2
      subst hp
      subst h2
      exact List.mem_cons_self p d
    · rw [if_neg hp] at h
      exact List.mem_cons_of_mem p (ih h)

theorem mem_of_mem_nlargest {α : Type} {k : ℕ} {xs : List (α × ℚ)} {x : α × ℚ}
    (h : x ∈ nlargest k xs) : x ∈ xs :=
  (List.perm_insertionSort keyGe xs).mem_iff.mp (List.take_subset k _ h)

/-- A candidate excluded from `nlargest` forces a full result whose
returned scores all dominate the candidate's score. -/
theorem nlargest_excluded_le {α : Type} {k : ℕ} {xs : List (α × ℚ)} {x : α × ℚ}
    (hx : x ∈ xs) (hnx : x ∉ nlargest k xs) :
    (nlargest k xs).length = k ∧ ∀ y ∈ nlargest k xs, x.2 ≤ y.2 := by
  have hxL : x ∈ List.insertionSort keyGe xs :=
    (List.perm_insertionSort keyGe xs).mem_iff.mpr hx
  have hxdrop : x ∈ (List.insertionSort keyGe xs).drop k := by
    rcases List.mem_append.mp
        ((List.take_append_drop k (List.insertionSort keyGe xs)).symm ▸ hxL)
      with h | h
    · exact absurd h hnx
    · exact h
  have hklen : k ≤ (List.insertionSort keyGe xs).length := by
    by_contra hlt
    push_neg at hlt
    rw [List.drop_eq_nil_of_le (le_of_lt hlt)] at hxdrop
    exact absurd hxdrop (List.not_mem_nil x)
  refine ⟨?_, ?_⟩
  · show ((List.insertionSort keyGe xs).take k).length = k
    rw [List.length_take]
    exact Nat.min_eq_left hklen
  · intro y hy
    exact List.Sorted.rel_of_mem_take_of_mem_drop
      (List.sorted_insertionSort keyGe xs) hy hxdrop

/-- Soundness of the `_rank_over_ids` fold: every scored pair either was
already accumulated or names an id of the input list whose chunk exists
and carries the scored embedding. -/
theorem rankOverIds_go_sound (r : Repo) (q : Vec) (metric : Metric) :
    ∀ (ids : List String) (acc scored : List (String × ℚ)),
      (ids.foldlM (fun scored sid =>
        match dictGet r.chunks (uidOfStr sid) with
        | Option.none => .error .keyError
        | some c =>
          match c.embedding with
          | Option.none => .ok scored
          | some v => .ok (scored ++ [(sid, scoreMetric metric q v)])) acc
        : Except PyErr (List (String × ℚ))) = .ok scored →
      ∀ p ∈ scored, p ∈ acc ∨ (p.1 ∈ ids ∧
        ∃ c, dictGet r.chunks (uidOfStr p.1) = some c ∧
          ∃ v, c.embedding = some v ∧ p.2 = scoreMetric metric q v) := by
  intro ids
  induction ids with
  | nil =>
    intro acc scored h p hp
    rw [List.foldlM_nil] at h
    injection h with h
    subst h
    exact Or.inl hp
  | cons sid0 ids ih =>
    intro acc scored h p hp
    rw [List.foldlM_cons] at h
    cases hc : dictGet r.chunks (uidOfStr sid0) with
    | none =>
      rw [hc] at h
      dsimp only at h
      rw [exceptBind_error] at h
      simp at h
    | some c0 =>
      rw [hc] at h
      dsimp only at h
      cases he : c0.embedding with
      | none =>
        rw [he] at h
        dsimp only at h
        rw [exceptBind_ok] at h
        rcases ih acc scored h p hp with hl | ⟨hin, hrest⟩
        · exact Or.inl hl
        · exact Or.inr ⟨List.mem_cons_of_mem _ hin, hrest⟩
      | some v0 =>
        rw [he] at h
        dsimp only at h
        rw [exceptBind_ok] at h
        rcases ih _ scored h p hp with hl | ⟨hin, hrest⟩
        · rcases List.mem_append.mp hl with hl2 | hl2
          · exact Or.inl hl2
          · have hps : p = (sid0, scoreMetric metric q v0) :=
              List.mem_singleton.mp hl2
            subst hps
            exact Or.inr ⟨List.mem_cons_self _ _, c0, hc, v0, he, rfl⟩
        · exact Or.inr ⟨List.mem_cons_of_mem _ hin, hrest⟩

/-- Completeness of the `_rank_over_ids` fold: the accumulator survives,
and every listed id with an existing, embedded chunk is scored. -/
theorem rankOverIds_go_complete (r : Repo) (q : Vec) (metric : Metric) :
    ∀ (ids : List String) (acc scored : List (String × ℚ)),
      (ids.foldlM (fun scored sid =>
        match dictGet r.chunks (uidOfStr sid) with
        | Option.none => .error .keyError
        | some c =>
          match c.embedding with
          | Option.none => .ok scored
          | some v => .ok (scored ++ [(sid, scoreMetric metric q v)])) acc
        : Except PyErr (List (String × ℚ))) = .ok scored →
      (∀ p ∈ acc, p ∈ scored) ∧
      (∀ sid c v, sid ∈ ids → dictGet r.chunks (uidOfStr sid) = some c →
        c.embedding = some v → (sid, scoreMetric metric q v) ∈ scored) := by
  intro ids
  induction ids with
  | nil =>
    intro acc scored h
    rw [List.foldlM_nil] at h
    injection h with h
    subst h
    exact ⟨fun p hp => hp,
      fun sid c v hsid _ _ => absurd hsid (List.not_mem_nil sid)⟩
  | cons sid0 ids ih =>
    intro acc scored h
    rw [List.foldlM_cons] at h
    cases hc : dictGet r.chunks (uidOfStr sid0) with
    | none =>
      rw [hc] at h
      dsimp only at h
      rw [exceptBind_error] at h
      simp at h
    | some c0 =>
      rw [hc] at h
      dsimp only at h
      cases he : c0.embedding with
      | none =>
        rw [he] at h
        dsimp only at h
        rw [exceptBind_ok] at h
        rcases ih acc scored h with ⟨hacc, hids⟩
        refine ⟨hacc, ?_⟩
        intro sid c v hsid hcd hce
        rcases List.mem_cons.mp hsid with rfl | hmem
        · rw [hcd] at hc
          injection hc with hc
          subst hc
          rw [hce] at he
          exact absurd he (by simp)
        · exact hids sid c v hmem hcd hce
      | some v0 =>
        rw [he] at h
        dsimp only at h
        rw [exceptBind_ok] at h
        rcases ih (acc ++ [(sid0, scoreMetric metric q v0)]) scored h with
          ⟨hacc, hids⟩
        refine ⟨fun p hp => hacc p (List.mem_append.mpr (Or.inl hp)), ?_⟩
        intro sid c v hsid hcd hce
        rcases List.mem_cons.mp hsid with rfl | hmem
        · rw [hcd] at hc
          injection hc with hc
          subst hc
          rw [hce] at he
          injection he with he
          subst he
          exact hacc _ (List.mem_append.mpr
            (Or.inr (List.mem_singleton.mpr rfl)))
        · exact hids sid c v hmem hcd hce

/-- Specification of the `projectHits` fold: hits extend the
accumulator pointwise from the `(chunk_id, score)` pairs, in both
directions, preserving length. -/
theorem projectHits_go (r : Repo) :
    ∀ (topk : List (String × ℚ)) (acc hits : List SearchHit),
      (topk.foldlM (fun hits p =>
        match dictGet r.chunks (uidOfStr p.1) with
        | Option.none => .error .keyError
        | some c =>
          .ok (hits ++ [{ chunk_id := uidStr c.id,
                          document_id := uidStr c.document_id,
                          library_id := uidStr c.library_id,
                          score := p.2, text := c.text }])) acc
        : Except PyErr (List SearchHit)) = .ok hits →
      ∃ rest, hits = acc ++ rest ∧ rest.length = topk.length ∧
        (∀ h ∈ rest, ∃ p ∈ topk,
          ∃ c, dictGet r.chunks (uidOfStr p.1) = some c ∧ h = mkHit c p.2) ∧
        (∀ p ∈ topk, ∃ c, dictGet r.chunks (uidOfStr p.1) = some c ∧
          mkHit c p.2 ∈ rest) := by
  intro topk
  induction topk with
  | nil =>
    intro acc hits h
    rw [List.foldlM_nil] at h
    injection h with h
    subst h
    exact ⟨[], by simp, rfl, by simp, by simp⟩
  | cons p0 topk ih =>
    intro acc hits h
    rw [List.foldlM_cons] at h
    cases hc : dictGet r.chunks (uidOfStr p0.1) with
    | none =>
      rw [hc] at h
      dsimp only at h
      rw [exceptBind_error] at h
      simp at h
    | some c0 =>
      rw [hc] at h
      dsimp only at h
      rw [exceptBind_ok] at h
      rcases ih (acc ++ [mkHit c0 p0.2]) hits h with
        ⟨rest', heq, hlen, hsound, hcompl⟩
      refine ⟨mkHit c0 p0.2 :: rest', by rw [heq]; simp, by simp [hlen],
        ?_, ?_⟩
      · intro hh hmem
        rcases List.mem_cons.mp hmem with rfl | hmem2
        · exact ⟨p0, List.mem_cons_self _ _, c0, hc, rfl⟩
        · rcases hsound hh hmem2 with ⟨p, hp, c, hcd, hhit⟩
          exact ⟨p, List.mem_cons_of_mem _ hp, c, hcd, hhit⟩
      · intro p hp
        rcases List.mem_cons.mp hp with rfl | hmem2
        · exact ⟨c0, hc, List.mem_cons_self _ _⟩
        · rcases hcompl p hmem2 with ⟨c, hcd, hhit⟩
          exact ⟨c, hcd, List.mem_cons_of_mem _ hhit⟩

/-- Membership in the chunk-level fold of `_prefilter_ids`: an id is
collected iff it was already in, or it is listed, the document and
library sub-filters passed, and its chunk exists and passes the chunk
sub-filter. -/
theorem prefilter_inner_go (parseIso : String → Option ℚ) (r : Repo)
    (fs : FilterSpec) (docOk libOk : Bool) :
    ∀ (cids : List ℕ) (acc res : List ℕ),
      (cids.foldlM (fun allowed2 cid =>
        match dictGet r.chunks cid with
        | Option.none => .error .keyError
        | some c =>
          if docOk ∧ libOk then do
            let cOk ← matchObj parseIso (chunkToPy c) (fs.chunk.getD [])
            pure (if cOk then setAdd allowed2 cid else allowed2)
          else pure allowed2) acc : Except PyErr (List ℕ)) = .ok res →
      ∀ cid, cid ∈ res ↔ cid ∈ acc ∨ (cid ∈ cids ∧ docOk = true ∧
        libOk = true ∧ ∃ c, dictGet r.chunks cid = some c ∧
          matchObj parseIso (chunkToPy c) (fs.chunk.getD []) = .ok true) := by
  intro cids
  induction cids with
  | nil =>
    intro acc res h cid
    rw [List.foldlM_nil] at h
    injection h with h
    subst h
    simp
  | cons cid0 cids ih =>
    intro acc res h cid
    rw [List.foldlM_cons] at h
    cases hc : dictGet r.chunks cid0 with
    | none =>
      rw [hc] at h
      dsimp only at h
      rw [exceptBind_error] at h
      simp at h
    | some c0 =>
      rw [hc] at h
      dsimp only at h
      by_cases hok : docOk = true ∧ libOk = true
      · rw [if_pos hok] at h
        cases hm : matchObj parseIso (chunkToPy c0) (fs.chunk.getD []) with
        | error e =>
          rw [hm] at h
          rw [exceptBind_error, exceptBind_error] at h
          simp at h
        | ok b =>
          rw [hm] at h
          rw [exceptBind_ok] at h
          rw [exceptPure, exceptBind_ok] at h
          by_cases hb : b = true
          · rw [if_pos hb] at h
            have hiff := ih (setAdd acc cid0) res h cid
            rw [hiff, mem_setAdd]
            subst hb
            constructor
            · rintro ((hl | rfl) | ⟨hcin, hd2, hl2, hex⟩)
              · exact Or.inl hl
              · exact Or.inr ⟨List.mem_cons_self _ _, hok.1, hok.2,
                  c0, hc, hm⟩
              · exact Or.inr ⟨List.mem_cons_of_mem _ hcin, hd2, hl2, hex⟩
            · rintro (hl | ⟨hcin, hd2, hl2, hex⟩)
              · exact Or.inl (Or.inl hl)
              · rcases List.mem_cons.mp hcin with rfl | hcin2
                · exact Or.inl (Or.inr rfl)
                · exact Or.inr ⟨hcin2, hd2, hl2, hex⟩
          · rw [if_neg hb] at h
            have hiff := ih acc res h cid
            rw [hiff]
            constructor
            · rintro (hl | ⟨hcin, hd2, hl2, hex⟩)
              · exact Or.inl hl
              · exact Or.inr ⟨List.mem_cons_of_mem _ hcin, hd2, hl2, hex⟩
            · rintro (hl | ⟨hcin, hd2, hl2, c, hcd, hcm⟩)
              · exact Or.inl hl
              · rcases List.mem_cons.mp hcin with rfl | hcin2
                · rw [hcd] at hc
                  injection hc with hc
                  subst hc
                  rw [hm] at hcm
                  injection hcm with hcm
                  exact absurd hcm hb
                · exact Or.inr ⟨hcin2, hd2, hl2, c, hcd, hcm⟩
      · rw [if_neg hok] at h
        rw [exceptPure, exceptBind_ok] at h
        have hiff := ih acc res h cid
        rw [hiff]
        constructor
        · rintro (hl | ⟨_, hd2, hl2, _⟩)
          · exact Or.inl hl
          · exact absurd ⟨hd2, hl2⟩ hok
        · rintro (hl | ⟨_, hd2, hl2, _⟩)
          · exact Or.inl hl
          · exact absurd ⟨hd2, hl2⟩ hok

/-- One document step of `_prefilter_ids`: membership in the
accumulator it produces. -/
theorem prefilter_head (parseIso : String → Option ℚ) (r : Repo)
    (fs : FilterSpec) (lib : Library) (did0 : ℕ) (acc acc1 : List ℕ)
    (hstep : ((match dictGet r.documents did0 with
      | Option.none => .error .keyError
      | some doc => do
        let docOk ← matchObj parseIso (documentToPy doc)
          (fs.document.getD [])
        let libOk ← matchObj parseIso (libraryToPy lib)
          (fs.library.getD [])
        (dictGetD r.by_document_chunks did0 []).foldlM
          (fun allowed2 cid =>
            match dictGet r.chunks cid with
            | Option.none => .error .keyError
            | some c =>
              if docOk ∧ libOk then do
                let cOk ← matchObj parseIso (chunkToPy c)
                  (fs.chunk.getD [])
                pure (if cOk then setAdd allowed2 cid else allowed2)
              else pure allowed2)
          acc) : Except PyErr (List ℕ)) = .ok acc1) :
    ∀ cid, cid ∈ acc1 ↔ cid ∈ acc ∨
      (cid ∈ dictGetD r.by_document_chunks did0 [] ∧
        ∃ doc, dictGet r.documents did0 = some doc ∧
          matchObj parseIso (documentToPy doc) (fs.document.getD [])
            = .ok true ∧
          matchObj parseIso (libraryToPy lib) (fs.library.getD [])
            = .ok true ∧
          ∃ c, dictGet r.chunks cid = some c ∧
            matchObj parseIso (chunkToPy c) (fs.chunk.getD [])
              = .ok true) := by
  intro cid
  cases hd : dictGet r.documents did0 with
  | none =>
    rw [hd] at hstep
    simp at hstep
  | some doc0 =>
    rw [hd] at hstep
    dsimp only at hstep
    cases hm1 : matchObj parseIso (documentToPy doc0)
        (fs.document.getD []) with
    | error e =>
      rw [hm1] at hstep
      rw [exceptBind_error] at hstep
      simp at hstep
    | ok docOk =>
      rw [hm1] at hstep
      rw [exceptBind_ok] at hstep
      cases hm2 : matchObj parseIso (libraryToPy lib)
          (fs.library.getD []) with
      | error e =>
        rw [hm2] at hstep
        rw [exceptBind_error] at hstep
        simp at hstep
      | ok libOk =>
        rw [hm2] at hstep
        rw [exceptBind_ok] at hstep
        have hinner := prefilter_inner_go parseIso r fs docOk libOk
          (dictGetD r.by_document_chunks did0 []) acc acc1 hstep cid
        rw [hinner]
        constructor
        · rintro (hl | ⟨hcin, hdk, hlk, hex⟩)
          · exact Or.inl hl
          · refine Or.inr ⟨hcin, doc0, rfl, ?_, ?_, hex⟩
            · rw [hdk] at hm1
              exact hm1
            · rw [hlk]
        · rintro (hl | ⟨hcin, doc, hdoc, hmd, hml, hex⟩)
          · exact Or.inl hl
          · injection hdoc with hdoc
            subst hdoc
            rw [hm1] at hmd
            injection hmd with hmd
            injection hml with hml
            exact Or.inr ⟨hcin, hmd, hml, hex⟩

/-- Membership in the document-level fold of `_prefilter_ids`. -/
theorem prefilter_outer_go (parseIso : String → Option ℚ) (r : Repo)
    (fs : FilterSpec) (lib : Library) :
    ∀ (dids : List ℕ) (acc res : List ℕ),
      (dids.foldlM (fun allowed did =>
        match dictGet r.documents did with
        | Option.none => .error .keyError
        | some doc => do
          let docOk ← matchObj parseIso (documentToPy doc)
            (fs.document.getD [])
          let libOk ← matchObj parseIso (libraryToPy lib)
            (fs.library.getD [])
          (dictGetD r.by_document_chunks did []).foldlM
            (fun allowed2 cid =>
              match dictGet r.chunks cid with
              | Option.none => .error .keyError
              | some c =>
                if docOk ∧ libOk then do
                  let cOk ← matchObj parseIso (chunkToPy c)
                    (fs.chunk.getD [])
                  pure (if cOk then setAdd allowed2 cid else allowed2)
                else pure allowed2)
            allowed) acc : Except PyErr (List ℕ)) = .ok res →
      ∀ cid, cid ∈ res ↔ cid ∈ acc ∨ ∃ did, did ∈ dids ∧
        (cid ∈ dictGetD r.by_document_chunks did [] ∧
          ∃ doc, dictGet r.documents did = some doc ∧
            matchObj parseIso (documentToPy doc) (fs.document.getD [])
              = .ok true ∧
            matchObj parseIso (libraryToPy lib) (fs.library.getD [])
              = .ok true ∧
            ∃ c, dictGet r.chunks cid = some c ∧
              matchObj parseIso (chunkToPy c) (fs.chunk.getD [])
                = .ok true) := by
  intro dids
  induction dids with
  | nil =>
    intro acc res h cid
    rw [List.foldlM_nil] at h
    injection h with h
    subst h
    simp
  | cons did0 dids ih =>
    intro acc res h cid
    rw [List.foldlM_cons] at h
    cases hstep : ((match dictGet r.documents did0 with
      | Option.none => .error .keyError
      | some doc => do
        let docOk ← matchObj parseIso (documentToPy doc)
          (fs.document.getD [])
        let libOk ← matchObj parseIso (libraryToPy lib)
          (fs.library.getD [])
        (dictGetD r.by_document_chunks did0 []).foldlM
          (fun allowed2 cid =>
            match dictGet r.chunks cid with
            | Option.none => .error .keyError
            | some c =>
              if docOk ∧ libOk then do
                let cOk ← matchObj parseIso (chunkToPy c)
                  (fs.chunk.getD [])
                pure (if cOk then setAdd allowed2 cid else allowed2)
              else pure allowed2)
          acc) : Except PyErr (List ℕ)) with
    | error e =>
      rw [hstep] at h
      rw [exceptBind_error] at h
      simp at h
    | ok acc1 =>
      rw [hstep] at h
      rw [exceptBind_ok] at h
      have hiff := ih acc1 res h cid
      have hhead := prefilter_head parseIso r fs lib did0 acc acc1 hstep cid
      rw [hiff, hhead]
      constructor
      · rintro ((hl | hhp) | ⟨did, hdin, hp⟩)
        · exact Or.inl hl
        · exact Or.inr ⟨did0, List.mem_cons_self _ _, hhp⟩
        · exact Or.inr ⟨did, List.mem_cons_of_mem _ hdin, hp⟩
      · rintro (hl | ⟨did, hdin, hp⟩)
        · exact Or.inl (Or.inl hl)
        · rcases List.mem_cons.mp hdin with rfl | hdin2
          · exact Or.inl (Or.inr hp)
          · exact Or.inr ⟨did, hdin2, hp⟩

/-- **C2 amended.**  For a search with filters on an existing library
(whose chunk map is well-keyed and whose query resolution leaves the
repository unchanged): (1) the pre-filter set is exactly the set of
chunk ids whose document, library and chunk sub-filters all evaluate to
true; (2) on the flat path every returned hit's chunk id is allowed, an
empty allowed set yields an empty result, and every allowed embedded
chunk either appears with its score or the result is full (length `k`)
with every returned score at least the chunk's score — so every allowed
chunk scoring strictly above a returned hit is returned; (3) on the RP
path, when the allowed set is nonempty every returned hit's chunk id is
allowed, but when the allowed set is *empty* the branch returns the
unfiltered RP top-k (the `if allowed_ids_set else None` truthiness bug
of `search.py:121`), not the empty result the original claim states. -/
theorem C2_search_filters (ctx : SearchCtx) (parseIso : String → Option ℚ)
    (r r2 : Repo) (libId : ℕ) (req : SearchRequest) (fs : FilterSpec)
    (q : Vec) (allowed : List ℕ) (hits : List SearchHit)
    (hwf : ∀ p ∈ r.chunks, p.2.id = p.1)
    (hf : req.filters = some fs)
    (hq : ensureQueryVec ctx.embedder r libId req = (.ok q, r))
    (hpre : prefilterIds parseIso r libId req.filters = .ok allowed)
    (hrun : SearchService.search ctx parseIso r libId req = (.ok hits, r2)) :
    (∀ lib, dictGet r.libraries libId = some lib → ∀ cid,
      cid ∈ allowed ↔ ∃ did, did ∈ dictGetD r.by_library_docs libId [] ∧
        (cid ∈ dictGetD r.by_document_chunks did [] ∧
          ∃ doc, dictGet r.documents did = some doc ∧
            matchObj parseIso (documentToPy doc) (fs.document.getD [])
              = .ok true ∧
            matchObj parseIso (libraryToPy lib) (fs.library.getD [])
              = .ok true ∧
            ∃ c, dictGet r.chunks cid = some c ∧
              matchObj parseIso (chunkToPy c) (fs.chunk.getD [])
                = .ok true)) ∧
    (∀ idxF, selectIndex ctx r libId req = .ok (.flat idxF) →
      (∀ h ∈ hits, uidOfStr h.chunk_id ∈ allowed) ∧
      (allowed = [] → hits = []) ∧
      (∀ sid c v, sid ∈ idxF.ids → uidOfStr sid ∈ allowed →
        dictGet r.chunks (uidOfStr sid) = some c → c.embedding = some v →
        mkHit c (scoreMetric req.metric q v) ∈ hits ∨
        (hits.length = req.k ∧
          ∀ h ∈ hits, scoreMetric req.metric q v ≤ h.score))) ∧
    (∀ idxR, selectIndex ctx r libId req = .ok (.rp idxR) →
      (allowed ≠ [] → ∀ h ∈ hits, uidOfStr h.chunk_id ∈ allowed) ∧
      (allowed = [] → searchTopK ctx r req q allowed (.rp idxR)
        = .ok (nlargest req.k (idxR.queryWith ctx.enumSet q req.k)))) := by
  have hpre1 : prefilterIds parseIso r libId (some fs) = .ok allowed := by
    rw [← hf]
    exact hpre
  have hlibex : ∃ lib0, dictGet r.libraries libId = some lib0 := by
    have h2 := hpre1
    simp only [prefilterIds] at h2
    cases hl : dictGet r.libraries libId with
    | none =>
      rw [hl] at h2
      simp at h2
    | some lib0 => exact ⟨lib0, rfl⟩
  rcases hlibex with ⟨lib0, hlib0⟩
  have hchar : ∀ lib, dictGet r.libraries libId = some lib → ∀ cid,
      cid ∈ allowed ↔ ∃ did, did ∈ dictGetD r.by_library_docs libId [] ∧
        (cid ∈ dictGetD r.by_document_chunks did [] ∧
          ∃ doc, dictGet r.documents did = some doc ∧
            matchObj parseIso (documentToPy doc) (fs.document.getD [])
              = .ok true ∧
            matchObj parseIso (libraryToPy lib) (fs.library.getD [])
              = .ok true ∧
            ∃ c, dictGet r.chunks cid = some c ∧
              matchObj parseIso (chunkToPy c) (fs.chunk.getD [])
                = .ok true) := by
    intro lib hlib cid
    have h2 := hpre1
    simp only [prefilterIds] at h2
    rw [hlib] at h2
    have h3 := prefilter_outer_go parseIso r fs lib
      (dictGetD r.by_library_docs libId []) [] allowed h2 cid
    rw [h3]
    simp
  have hlink : ∃ sel topk, selectIndex ctx r libId req = .ok sel ∧
      searchTopK ctx r req q allowed sel = .ok topk ∧
      projectHits r topk = .ok hits := by
    unfold SearchService.search at hrun
    rw [if_neg (by simp [hlib0])] at hrun
    rw [hq] at hrun
    dsimp only at hrun
    cases hsel0 : selectIndex ctx r libId req with
    | error e =>
      rw [hsel0] at hrun
      dsimp only at hrun
      simp at hrun
    | ok sel =>
      rw [hsel0] at hrun
      dsimp only at hrun
      rw [hf, hpre1] at hrun
      dsimp only at hrun
      cases htk0 : searchTopK ctx r req q allowed sel with
      | error e =>
        rw [htk0] at hrun
        dsimp only at hrun
        simp at hrun
      | ok topk =>
        rw [htk0] at hrun
        dsimp only at hrun
        cases hpj0 : projectHits r topk with
        | error e =>
          rw [hpj0] at hrun
          dsimp only at hrun
          simp at hrun
        | ok hs =>
          rw [hpj0] at hrun
          dsimp only at hrun
          have h1 := congrArg Prod.fst hrun
          dsimp only at h1
          injection h1 with h1
          subst h1
          exact ⟨sel, topk, rfl, htk0, hpj0⟩
  rcases hlink with ⟨sel, topk, hsel0, htk0, hpj0⟩
  unfold projectHits at hpj0
  rcases projectHits_go r topk [] hits hpj0 with ⟨rest, hre, hlen, hsound, hcompl⟩
  rw [List.nil_append] at hre
  subst hre
  refine ⟨hchar, ?_, ?_⟩
  · intro idxF hselF
    rw [hselF] at hsel0
    injection hsel0 with hsel0
    subst hsel0
    simp only [searchTopK] at htk0
    rw [hf] at htk0
    rw [if_pos (by simp)] at htk0
    cases hro : rankOverIds r
        (idxF.ids.filter (fun sid => uidOfStr sid ∈ allowed)) q req.metric with
    | error e =>
      rw [hro] at htk0
      simp at htk0
    | ok scored =>
      rw [hro] at htk0
      dsimp only at htk0
      injection htk0 with htk0
      unfold rankOverIds at hro
      have hsnd := rankOverIds_go_sound r q req.metric
        (idxF.ids.filter (fun sid => uidOfStr sid ∈ allowed)) [] scored hro
      have hcmp := rankOverIds_go_complete r q req.metric
        (idxF.ids.filter (fun sid => uidOfStr sid ∈ allowed)) [] scored hro
      refine ⟨?_, ?_, ?_⟩
      · intro h hmem
        rcases hsound h hmem with ⟨p, hp, c, hcd, hheq⟩
        have hpsc : p ∈ scored := by
          rw [← htk0] at hp
          exact mem_of_mem_nlargest hp
        rcases hsnd p hpsc with habs | ⟨hpin, _⟩
        · exact absurd habs (List.not_mem_nil p)
        · have hal : uidOfStr p.1 ∈ allowed :=
            of_decide_eq_true (List.mem_filter.mp hpin).2
          have hcid : c.id = uidOfStr p.1 := hwf _ (dictGet_mem hcd)
          rw [hheq]
          simp only [mkHit]
          rw [uidOfStr_uidStr, hcid]
          exact hal
      · intro hae
        subst hae
        have hfe : idxF.ids.filter
            (fun sid => uidOfStr sid ∈ ([] : List ℕ)) = [] := by
          rw [List.filter_eq_nil_iff]
          intro a _
          simp
        rw [hfe] at hro
        rw [List.foldlM_nil] at hro
        rw [exceptPure] at hro
        injection hro with hro
        subst hro
        have htke : topk = [] := by
          rw [← htk0]
          simp [nlargest]
        rw [htke] at hlen
        exact List.eq_nil_of_length_eq_zero (by simpa using hlen)
      · intro sid c v hsid hal hcd hce
        have hsidf : sid ∈ idxF.ids.filter
            (fun sid => uidOfStr sid ∈ allowed) :=
          List.mem_filter.mpr ⟨hsid, decide_eq_true hal⟩
        have hmem : (sid, scoreMetric req.metric q v) ∈ scored :=
          hcmp.2 sid c v hsidf hcd hce
        by_cases hin : (sid, scoreMetric req.metric q v) ∈ topk
        · left
          rcases hcompl _ hin with ⟨cc, hcd2, hhmem⟩
          rw [hcd] at hcd2
          injection hcd2 with hcd2
          subst hcd2
          exact hhmem
        · right
          have hnin : (sid, scoreMetric req.metric q v)
              ∉ nlargest req.k scored := by
            rw [htk0]
            exact hin
          rcases nlargest_excluded_le hmem hnin with ⟨hlen2, hbound⟩
          rw [htk0] at hlen2 hbound
          refine ⟨?_, ?_⟩
          · rw [hlen]
            exact hlen2
          · intro h hh
            rcases hsound h hh with ⟨p, hp, cc, hcd3, hheq⟩
            have hb := hbound p hp
            rw [hheq]
            exact hb
  · intro idxR hselR
    rw [hselR] at hsel0
    injection hsel0 with hsel0
    subst hsel0
    simp only [searchTopK] at htk0
    rw [hf] at htk0
    rw [if_pos (by simp)] at htk0
    injection htk0 with htk0
    refine ⟨?_, ?_⟩
    · intro hne h hmem
      rcases hsound h hmem with ⟨p, hp, c, hcd, hheq⟩
      have hpc : p ∈ (idxR.queryWith ctx.enumSet q req.k).filter
          (fun p => match allowedStrOf allowed with
            | Option.none => true
            | some as2 => p.1 ∈ as2) := by
        rw [← htk0] at hp
        exact mem_of_mem_nlargest hp
      have hpal := (List.mem_filter.mp hpc).2
      have hsome : allowedStrOf allowed = some (allowed.map uidStr) := by
        unfold allowedStrOf
        rw [if_neg (fun hemp => hne (List.isEmpty_iff.mp hemp))]
      rw [hsome] at hpal
      dsimp only at hpal
      have hpin : p.1 ∈ allowed.map uidStr := of_decide_eq_true hpal
      rcases List.mem_map.mp hpin with ⟨cid, hcidin, hcideq⟩
      have hcid : c.id = uidOfStr p.1 := hwf _ (dictGet_mem hcd)
      rw [hheq]
      simp only [mkHit]
      rw [uidOfStr_uidStr, hcid, ← hcideq, uidOfStr_uidStr]
      exact hcidin
    · intro hae
      subst hae
      simp only [searchTopK]
      rw [hf]
      rw [if_pos (by simp)]
      have hnone : allowedStrOf [] = Option.none := rfl
      simp only [hnone]
      rw [List.filter_true]

/-- The search context of the C2 witness: no cached indexes, so the
flat request falls back to the lazy flat build. -/
def c2WCtx : SearchCtx := ⟨c2Embedder, ⟨[], []⟩, [], fun s => s⟩

/-- The C2 witness request: flat search with the nothing-matching
chunk filter. -/
def c2WReq : SearchRequest :=
  ⟨Option.none, some [1], 5, .flat, .l2, some c2Filters⟩

/-- The library stored at key 0 of `c2Repo`. -/
def c2WLib : Library :=
  (dictGet c2Repo.libraries 0).getD
    ⟨0, "", Option.none, ⟨0, Option.none, Option.none⟩,
      IndexState.default, Option.none⟩

/-- Witness for C2 amended: the hypotheses hold on the concrete
two-chunk repository with the nothing-matching filter, and the
characterization confirms the empty pre-filter set. -/
theorem C2_search_filters_witness :
    dictGet c2Repo.libraries 0 = some c2WLib ∧
    (∀ cid, cid ∈ ([] : List ℕ) ↔
      ∃ did, did ∈ dictGetD c2Repo.by_library_docs 0 [] ∧
        (cid ∈ dictGetD c2Repo.by_document_chunks did [] ∧
          ∃ doc, dictGet c2Repo.documents did = some doc ∧
            matchObj (fun _ => Option.none) (documentToPy doc)
              (c2Filters.document.getD []) = .ok true ∧
            matchObj (fun _ => Option.none) (libraryToPy c2WLib)
              (c2Filters.library.getD []) = .ok true ∧
            ∃ c, dictGet c2Repo.chunks cid = some c ∧
              matchObj (fun _ => Option.none) (chunkToPy c)
                (c2Filters.chunk.getD []) = .ok true)) := by
  refine ⟨rfl, ?_⟩
  have h := C2_search_filters c2WCtx (fun _ => Option.none) c2Repo c2Repo 0
    c2WReq c2Filters [1] [] [] (by decide) rfl rfl rfl rfl
  exact h.1 c2WLib rfl

end VectorDb
